import Mathlib

/-!
# Verification of `Databases/Extensions/extensions.cpp`

A shallow embedding of the SQLite extension functions of the repository
(`levenshtein_distance`, `haversine_distance`, `radToDist`, `distToRad` and
the four adapter functions) and theorems about them.

## Conventions of the embedding

* A `const char*` argument is the list of bytes stored at the pointer; the
  buffer is followed by the terminating NUL the caller guarantees.  `strlen`
  therefore counts the bytes before the first NUL of the list (or all of
  them when there is none).
* `int` is a 32-bit two's complement integer, modelled by `Int`.  The
  conversion `size_t → int` of `int len = strlen(..)` is modular (`toInt`);
  a signed `+` that leaves the range is undefined behaviour (`addInt` gives
  `none`).
* A call that has no defined return value (undefined behaviour, or an
  exception thrown by `new`) returns `none`.
* Memory is unbounded: `new` fails only on a negative bound.
* `double` is modelled by the exact reals `ℝ`, so the theorems about
  `haversine_distance` are statements of exact real arithmetic.  The
  constant `pi` is the `double` the source stores: the one nearest to the
  decimal literal it writes.
* `float` is the set of reals with a significand of 24 bits; the conversion
  `double → float` of the `float` locals of `haversine_function` rounds to
  the nearest of them (`toFloat`).
* A call of an adapter function appends the `sqlite3_result_*` calls it
  makes to its `sqlite3_context`.
-/

namespace Extensions

/-! ## Machine integers -/

/-- Largest value of a 32-bit `int`. -/
def INT_MAX : Int := 2147483647

/-- Smallest value of a 32-bit `int`. -/
def INT_MIN : Int := -2147483648

/-- Conversion `size_t → int`, as in `int len1 = strlen(str1)`: the value is
reduced modulo `2^32` into the range `[-2^31, 2^31)`. -/
def toInt (n : Nat) : Int := ((n : Int) + 2147483648) % 4294967296 - 2147483648

/-- Signed addition of two `int`s; leaving the range of `int` is undefined
behaviour. -/
def addInt (x y : Int) : Option Int :=
  if INT_MIN ≤ x + y ∧ x + y ≤ INT_MAX then some (x + y) else none

/-- The call `fmin(x, y)` on two `int` arguments: both are converted to
`double` exactly (every 32-bit integer is a `double`), the smaller one is
returned, and the conversion back to `int` on assignment is exact. -/
def fmin (x y : Int) : Int := if x ≤ y then x else y

/-! ## C strings -/

/-- The function `strlen`: the number of bytes before the first NUL. -/
def strlen : List UInt8 → Nat
  | [] => 0
  | c :: cs => if c = 0 then 0 else strlen cs + 1

/-- The read `str[i]`; the byte after the stored bytes is the terminating
NUL. -/
def charAt (str : List UInt8) (i : Nat) : UInt8 := str.getD i 0

/-! ## `levenshtein_distance` -/

/-- The `int** matrix`, as the function from (row, column) to the stored
value. -/
abbrev Matrix := Nat → Nat → Int

/-- The assignment `matrix[i][j] = v`. -/
def Matrix.set (m : Matrix) (i j : Nat) (v : Int) : Matrix :=
  fun i' j' => if i' = i ∧ j' = j then v else m i' j'

/-- Lines 24-25: `for (int i = 0; i <= len1; i++) matrix[i][0] = i;`. -/
def initColumn (len1 : Nat) (m : Matrix) : Matrix :=
  (List.range (len1 + 1)).foldl (fun m i => m.set i 0 (i : Int)) m

/-- Lines 26-27: `for (int j = 0; j <= len2; j++) matrix[0][j] = j;`. -/
def initRow (len2 : Nat) (m : Matrix) : Matrix :=
  (List.range (len2 + 1)).foldl (fun m j => m.set 0 j (j : Int)) m

/-- Lines 34-36, the body of the inner loop at `(i, j)`. -/
def fillCell (str1 str2 : List UInt8) (i j : Nat) (m : Matrix) : Option Matrix := do
  let cost : Int := if charAt str1 (i - 1) = charAt str2 (j - 1) then 0 else 1
  let del ← addInt (m (i - 1) j) 1
  let ins ← addInt (m i (j - 1)) 1
  let sub ← addInt (m (i - 1) (j - 1)) cost
  pure (m.set i j (fmin (fmin del ins) sub))

/-- Lines 32-37: `for (int j = 1; j <= len2; j++) { ... }` in row `i`. -/
def fillRow (str1 str2 : List UInt8) (len2 i : Nat) (m : Matrix) : Option Matrix :=
  (List.range' 1 len2).foldlM (fun m j => fillCell str1 str2 i j m) m

/-- Lines 30-38: `for (int i = 1; i <= len1; i++) { ... }`. -/
def fillMatrix (str1 str2 : List UInt8) (len1 len2 : Nat) (m : Matrix) : Option Matrix :=
  (List.range' 1 len1).foldlM (fun m i => fillRow str1 str2 len2 i m) m

/-- Lines 18-41 once the arrays are allocated: initialise, fill, and read
`matrix[len1][len2]`.  The rows come from `new int[len2 + 1]` uninitialised;
`garbage` is their content. -/
def levenshtein_matrix (garbage : Matrix) (str1 str2 : List UInt8) (len1 len2 : Nat) :
    Option Int := do
  let matrix := initRow len2 (initColumn len1 garbage)
  let matrix ← fillMatrix str1 str2 len1 len2 matrix
  pure (matrix len1 len2)

/-- The function `levenshtein_distance` (extensions.cpp, lines 8-42).

After the two early returns both lengths are non-zero.  `len1 + 1` and
`len2 + 1` are `int` additions (undefined at `INT_MAX`); a negative length
makes `new` throw or, at `-1`, gives empty arrays whose element
`matrix[0]` the code then accesses: no defined result.  The fresh rows are
given the content 0 here; by `levenshtein_matrix_eq` the result is the same
for every other content. -/
def levenshtein_distance (str1 str2 : List UInt8) : Option Int :=
  let len1 := toInt (strlen str1)
  let len2 := toInt (strlen str2)
  if len1 = 0 then some len2
  else if len2 = 0 then some len1
  else do
    let rows ← addInt len1 1
    let cols ← addInt len2 1
    if rows ≤ 0 ∨ cols ≤ 0 then none
    else levenshtein_matrix (fun _ _ => 0) str1 str2 len1.toNat len2.toNat

/-! ## `haversine_distance` -/

/-- Line 6: `const double pi = 3.14159265358979323846;`.  The constant is a
`double`: its value is the `double` nearest to the decimal literal,
`884279719003555 / 2^48`, and that is the number the code divides by 2 and
compares the latitudes with. -/
noncomputable def pi : ℝ := 884279719003555 / 281474976710656

/-- Lines 76-88: the rectangular coordinates `{sin(lon) * cos(lat), sin(lat),
cos(lon) * cos(lat)}` of a point. -/
noncomputable def rect (lat lon : ℝ) : ℝ × ℝ × ℝ :=
  (Real.sin lon * Real.cos lat, Real.sin lat, Real.cos lon * Real.cos lat)

/-- Lines 91-92: `sqrt(v[0] * v[0] + v[1] * v[1] + v[2] * v[2])`. -/
noncomputable def magnitude (v : ℝ × ℝ × ℝ) : ℝ :=
  Real.sqrt (v.1 * v.1 + v.2.1 * v.2.1 + v.2.2 * v.2.2)

/-- Lines 95-101: the three components divided by the magnitude. -/
noncomputable def unitVector (v : ℝ × ℝ × ℝ) : ℝ × ℝ × ℝ :=
  (v.1 / magnitude v, v.2.1 / magnitude v, v.2.2 / magnitude v)

/-- Line 104: the dot product that is passed to `acos`. -/
noncomputable def haversine_dot (lat_a lon_a lat_b lon_b : ℝ) : ℝ :=
  let a := unitVector (rect lat_a lon_a)
  let b := unitVector (rect lat_b lon_b)
  a.1 * b.1 + a.2.1 * b.2.1 + a.2.2 * b.2.2

/-- The function `haversine_distance` (extensions.cpp, lines 64-105). -/
noncomputable def haversine_distance (lat_a lon_a lat_b lon_b : ℝ) : ℝ :=
  if lat_a = lat_b ∧ lon_a = lon_b then 0
  else
    let pi2 := pi / 2
    if (lat_a = pi2 ∧ lat_b = pi2) ∨ (lat_a = -pi2 ∧ lat_b = -pi2) then 0
    else Real.arccos (haversine_dot lat_a lon_a lat_b lon_b)

/-! ## `radToDist` and `distToRad` -/

/-- The function `radToDist` (lines 133-136): `rad * (double)10800 / pi`. -/
noncomputable def radToDist (rad : ℝ) : ℝ := rad * 10800 / pi

/-- The function `distToRad` (lines 158-161): `dist * pi / (double)10800`. -/
noncomputable def distToRad (dist : ℝ) : ℝ := dist * pi / 10800

/-! ## The SQLite interface

The host's values and result calls, as far as the four adapter functions
use them. -/

/-- The fundamental datatype that `sqlite3_value_type` reports. -/
inductive Datatype
  | SQLITE_INTEGER
  | SQLITE_FLOAT
  | SQLITE_TEXT
  | SQLITE_BLOB
  | SQLITE_NULL
  deriving DecidableEq

/-- An `sqlite3_value`: a value of one of the five datatypes with its
content. -/
inductive sqlite3_value
  | integer (i : Int)
  | float (d : ℝ)
  | text (s : List UInt8)
  | blob (s : List UInt8)
  | null

/-- The call `sqlite3_value_type(v)`. -/
def sqlite3_value_type : sqlite3_value → Datatype
  | .integer _ => .SQLITE_INTEGER
  | .float _ => .SQLITE_FLOAT
  | .text _ => .SQLITE_TEXT
  | .blob _ => .SQLITE_BLOB
  | .null => .SQLITE_NULL

/-- The call `sqlite3_value_text(v)` on a value of text kind: its bytes, which
the host stores followed by a NUL.  The code calls it on text values only;
the conversions the host applies to the other kinds are not modelled. -/
def sqlite3_value_text : sqlite3_value → List UInt8
  | .text s => s
  | _ => []

/-- The call `sqlite3_value_double(v)` on a value of floating-point kind.
The code calls it on such values only; the conversions the host applies to
the other kinds are not modelled. -/
noncomputable def sqlite3_value_double : sqlite3_value → ℝ
  | .float d => d
  | _ => 0

/-- One call of `sqlite3_result_int`, `sqlite3_result_double` or
`sqlite3_result_null`. -/
inductive ResultCall
  | result_int (i : Int)
  | result_double (d : ℝ)
  | result_null

/-- The `sqlite3_context` of a function call: the result calls made on it so
far, oldest first. -/
abbrev sqlite3_context := List ResultCall

/-- The call `sqlite3_result_int(context, i)`. -/
def sqlite3_result_int (context : sqlite3_context) (i : Int) : sqlite3_context :=
  context ++ [ResultCall.result_int i]

/-- The call `sqlite3_result_double(context, d)`. -/
def sqlite3_result_double (context : sqlite3_context) (d : ℝ) : sqlite3_context :=
  context ++ [ResultCall.result_double d]

/-- The call `sqlite3_result_null(context)`. -/
def sqlite3_result_null (context : sqlite3_context) : sqlite3_context :=
  context ++ [ResultCall.result_null]

/-- The read `argv[i]`; `argc` is the length of `argv`.  The code reads
`argv[i]` only after it has compared `argc`. -/
def arg (argv : List sqlite3_value) (i : Nat) : sqlite3_value :=
  argv.getD i sqlite3_value.null

/-- Rounding of a real number to the nearest integer, ties to the even
one. -/
noncomputable def roundHalfEven (y : ℝ) : ℤ :=
  if Int.fract y = 1 / 2 then (if Even ⌊y⌋ then ⌊y⌋ else ⌊y⌋ + 1) else round y

/-- The conversion `double → float` of `float latA = sqlite3_value_double(..)`:
the nearest number with a significand of 24 bits and an exponent of at least
`-126`, ties to even.  A value beyond the largest `float` converts to an
infinity, which the real numbers do not have; the definition is used below
that bound only. -/
noncomputable def toFloat (x : ℝ) : ℝ :=
  let e := max (Int.log 2 |x|) (-126)
  let ulp := (2 : ℝ) ^ (e - 23)
  (roundHalfEven (x / ulp) : ℝ) * ulp

/-- The function `levenshtein_function` (lines 44-62).  It has no defined
effect when the call of `levenshtein_distance` has no defined result. -/
def levenshtein_function (context : sqlite3_context) (argv : List sqlite3_value) :
    Option sqlite3_context :=
  let argc := argv.length
  if argc = 2 ∧ sqlite3_value_type (arg argv 0) = Datatype.SQLITE_TEXT ∧
      sqlite3_value_type (arg argv 1) = Datatype.SQLITE_TEXT then do
    let str1 := sqlite3_value_text (arg argv 0)
    let str2 := sqlite3_value_text (arg argv 1)
    let dist ← levenshtein_distance str1 str2
    pure (sqlite3_result_int context dist)
  else
    some (sqlite3_result_null context)

/-- The function `haversine_function` (lines 107-131).  The four locals are
declared `float`, so each argument is converted to `float` and back to
`double` (exactly) for the call of `haversine_distance`. -/
noncomputable def haversine_function (context : sqlite3_context) (argv : List sqlite3_value) :
    sqlite3_context :=
  let argc := argv.length
  if argc = 4 ∧ sqlite3_value_type (arg argv 0) = Datatype.SQLITE_FLOAT ∧
      sqlite3_value_type (arg argv 1) = Datatype.SQLITE_FLOAT ∧
      sqlite3_value_type (arg argv 2) = Datatype.SQLITE_FLOAT ∧
      sqlite3_value_type (arg argv 3) = Datatype.SQLITE_FLOAT then
    let latA := toFloat (sqlite3_value_double (arg argv 0))
    let lonA := toFloat (sqlite3_value_double (arg argv 1))
    let latB := toFloat (sqlite3_value_double (arg argv 2))
    let lonB := toFloat (sqlite3_value_double (arg argv 3))
    let dist := haversine_distance latA lonA latB lonB
    sqlite3_result_double context dist
  else
    sqlite3_result_null context

/-- The function `radToDist_function` (lines 139-156). -/
noncomputable def radToDist_function (context : sqlite3_context) (argv : List sqlite3_value) :
    sqlite3_context :=
  let argc := argv.length
  if argc = 1 ∧ sqlite3_value_type (arg argv 0) = Datatype.SQLITE_FLOAT then
    let rad := sqlite3_value_double (arg argv 0)
    let dist := radToDist rad
    sqlite3_result_double context dist
  else
    sqlite3_result_null context

/-- The function `distToRad_function` (lines 164-181). -/
noncomputable def distToRad_function (context : sqlite3_context) (argv : List sqlite3_value) :
    sqlite3_context :=
  let argc := argv.length
  if argc = 1 ∧ sqlite3_value_type (arg argv 0) = Datatype.SQLITE_FLOAT then
    let dist := sqlite3_value_double (arg argv 0)
    let rad := distToRad dist
    sqlite3_result_double context rad
  else
    sqlite3_result_null context

/-! ## Specification-side definitions -/

/-- The conversion constant `K = 10800/π` of section 4.3 of the
specification, with the constant `pi` of the source. -/
noncomputable def K : ℝ := 10800 / pi

/-- The table `M` of section 4.1 of the specification: `M[0][j] = j`,
`M[i][0] = i`, and every other entry is the least of the entry above plus
one, the entry to the left plus one, and the diagonal entry plus the cost of
aligning `a[i-1]` with `b[j-1]`. -/
def levTable (a b : List UInt8) : Nat → Nat → Nat
  | 0, j => j
  | i + 1, 0 => i + 1
  | i + 1, j + 1 =>
      min (min (levTable a b i (j + 1) + 1) (levTable a b (i + 1) j + 1))
        (levTable a b i j + (if charAt a i = charAt b j then 0 else 1))

/-- The same recurrence by recursion on the two lists, from their heads. -/
def lev : List UInt8 → List UInt8 → Nat
  | [], b => b.length
  | _ :: a, [] => a.length + 1
  | x :: a, y :: b =>
      min (min (lev a (y :: b) + 1) (lev (x :: a) b + 1)) (lev a b + (if x = y then 0 else 1))

/-- One edit operation: the insertion of a byte, the deletion of a byte, or
the substitution of a byte by a different one, at any position. -/
inductive EditStep : List UInt8 → List UInt8 → Prop
  | insert (l r : List UInt8) (x : UInt8) : EditStep (l ++ r) (l ++ x :: r)
  | delete (l r : List UInt8) (x : UInt8) : EditStep (l ++ x :: r) (l ++ r)
  | substitute (l r : List UInt8) (x y : UInt8) (h : x ≠ y) :
      EditStep (l ++ x :: r) (l ++ y :: r)

/-- An edit script of `n` operations that transforms the first list into the
second. -/
inductive EditScript : Nat → List UInt8 → List UInt8 → Prop
  | done (a : List UInt8) : EditScript 0 a a
  | step {n : Nat} {a b c : List UInt8} : EditStep a b → EditScript n b c →
      EditScript (n + 1) a c

/-- The number `d` is the Levenshtein distance of `a` and `b`: some edit
script has `d` operations and none has fewer. -/
def IsEditDistance (a b : List UInt8) (d : Nat) : Prop :=
  EditScript d a b ∧ ∀ n, EditScript n a b → d ≤ n

/-- No NUL byte occurs in the list. -/
def NulFree (a : List UInt8) : Prop := (0 : UInt8) ∉ a

instance instDecidableNulFree (a : List UInt8) : Decidable (NulFree a) := by
  unfold NulFree; infer_instance

/-- The cells the loops have written when the inner loop is about to handle
`(i, j)` hold the table: rows above `i`, row `i` left of `j`, and column 0. -/
def Filled (a b : List UInt8) (n1 n2 i j : Nat) (m : Matrix) : Prop :=
  ∀ i' j', i' ≤ n1 → j' ≤ n2 → (i' < i ∨ (i' = i ∧ j' < j) ∨ j' = 0) →
    m i' j' = (levTable a b i' j' : Int)

/-- The string of `2^31 - 1` bytes `'a'`. -/
def longString : List UInt8 := List.replicate 2147483647 97

/-- The string of `2^31` bytes `'a'`. -/
def hugeString : List UInt8 := List.replicate 2147483648 97

/-- The bytes of `"kitten"`. -/
def kitten : List UInt8 := [107, 105, 116, 116, 101, 110]

/-- The bytes of `"sitting"`. -/
def sitting : List UInt8 := [115, 105, 116, 116, 105, 110, 103]

/-- The bytes of `"flaw"`. -/
def flaw : List UInt8 := [102, 108, 97, 119]

/-- The bytes of `"lawn"`. -/
def lawn : List UInt8 := [108, 97, 119, 110]

/-! ## The recurrence on lists and edit scripts -/

theorem lev_nil_right (a : List UInt8) : lev a [] = a.length := by
  cases a <;> simp [lev]

theorem lev_cons_left_le (x : UInt8) (a b : List UInt8) : lev (x :: a) b ≤ lev a b + 1 := by
  cases b with
  | nil => simp [lev, lev_nil_right]
  | cons y b => rw [lev]; omega

theorem lev_cons_right_le (y : UInt8) (a b : List UInt8) : lev a (y :: b) ≤ lev a b + 1 := by
  cases a with
  | nil => simp [lev]
  | cons x a => rw [lev]; omega

theorem lev_le_cons_right (y : UInt8) (a b : List UInt8) : lev a b ≤ lev a (y :: b) + 1 := by
  induction a with
  | nil => simp [lev]; omega
  | cons x a ih =>
    have h1 := lev_cons_left_le x a b
    rw [lev]
    omega

theorem lev_subst_right (x y : UInt8) (a b : List UInt8) :
    lev a (y :: b) ≤ lev a (x :: b) + 1 := by
  induction a with
  | nil => simp [lev]
  | cons z a ih =>
    rw [lev, lev]
    split_ifs <;> omega

theorem lev_congr_right (x : UInt8) (b c : List UInt8) (h : ∀ a, lev a c ≤ lev a b + 1) :
    ∀ a, lev a (x :: c) ≤ lev a (x :: b) + 1 := by
  intro a
  induction a with
  | nil => have := h []; simp [lev] at this ⊢; omega
  | cons z a ih =>
    have h1 := h (z :: a)
    have h2 := h a
    rw [lev, lev]
    omega

/-- One edit operation on the target changes the recurrence by at most one. -/
theorem lev_step (b c : List UInt8) (h : EditStep b c) : ∀ a, lev a c ≤ lev a b + 1 := by
  cases h with
  | insert l r x =>
    induction l with
    | nil => intro a; exact lev_cons_right_le x a r
    | cons z l ih => exact lev_congr_right z _ _ ih
  | delete l r x =>
    induction l with
    | nil => intro a; exact lev_le_cons_right x a r
    | cons z l ih => exact lev_congr_right z _ _ ih
  | substitute l r x y _ =>
    induction l with
    | nil => intro a; exact lev_subst_right x y a r
    | cons z l ih => exact lev_congr_right z _ _ ih

theorem lev_self (a : List UInt8) : lev a a = 0 := by
  induction a with
  | nil => simp [lev]
  | cons x a ih => rw [lev]; simp [ih]

theorem lev_symm (a b : List UInt8) : lev a b = lev b a := by
  induction a, b using lev.induct with
  | case1 b => simp [lev, lev_nil_right]
  | case2 x a => simp [lev]
  | case3 x a y b ih1 ih2 ih3 =>
    rw [lev, lev, ih1, ih2, ih3, min_comm (lev (y :: b) a + 1)]
    simp only [eq_comm]

theorem editStep_symm {a b : List UInt8} (h : EditStep a b) : EditStep b a := by
  cases h with
  | insert l r x => exact EditStep.delete l r x
  | delete l r x => exact EditStep.insert l r x
  | substitute l r x y h => exact EditStep.substitute l r y x (Ne.symm h)

theorem editStep_cons (z : UInt8) {a b : List UInt8} (h : EditStep a b) :
    EditStep (z :: a) (z :: b) := by
  cases h with
  | insert l r x => exact EditStep.insert (z :: l) r x
  | delete l r x => exact EditStep.delete (z :: l) r x
  | substitute l r x y h => exact EditStep.substitute (z :: l) r x y h

theorem editStep_reverse {a b : List UInt8} (h : EditStep a b) :
    EditStep a.reverse b.reverse := by
  cases h with
  | insert l r x =>
    have := EditStep.insert r.reverse l.reverse x
    simpa using this
  | delete l r x =>
    have := EditStep.delete r.reverse l.reverse x
    simpa using this
  | substitute l r x y h =>
    have := EditStep.substitute r.reverse l.reverse x y h
    simpa using this

theorem editScript_snoc {n : Nat} {a b c : List UInt8} (h : EditScript n a b)
    (s : EditStep b c) : EditScript (n + 1) a c := by
  induction h with
  | done a => exact EditScript.step s (EditScript.done _)
  | step s' _ ih => exact EditScript.step s' (ih s)

theorem editScript_append {n m : Nat} {a b c : List UInt8} (h : EditScript n a b)
    (h' : EditScript m b c) : EditScript (n + m) a c := by
  induction h with
  | done a => simpa using h'
  | @step k _ _ _ s _ ih =>
    have := EditScript.step s (ih h')
    rwa [show k + 1 + m = k + m + 1 by omega]

theorem editScript_symm {n : Nat} {a b : List UInt8} (h : EditScript n a b) :
    EditScript n b a := by
  induction h with
  | done a => exact EditScript.done a
  | step s _ ih => exact editScript_snoc ih (editStep_symm s)

theorem editScript_cons (z : UInt8) {n : Nat} {a b : List UInt8} (h : EditScript n a b) :
    EditScript n (z :: a) (z :: b) := by
  induction h with
  | done a => exact EditScript.done _
  | step s _ ih => exact EditScript.step (editStep_cons z s) ih

theorem editScript_reverse {n : Nat} {a b : List UInt8} (h : EditScript n a b) :
    EditScript n a.reverse b.reverse := by
  induction h with
  | done a => exact EditScript.done _
  | step s _ ih => exact EditScript.step (editStep_reverse s) ih

/-- No edit script is shorter than the value of the recurrence. -/
theorem lev_le_of_script {n : Nat} {a b : List UInt8} (h : EditScript n a b) : lev a b ≤ n := by
  induction h with
  | done a => simp [lev_self]
  | @step k a b c s _ ih =>
    have := lev_step b a (editStep_symm s) c
    rw [lev_symm a c, lev_symm b c] at *
    omega

theorem script_insert_all (b : List UInt8) : EditScript b.length [] b := by
  induction b with
  | nil => exact EditScript.done _
  | cons y b ih => exact editScript_snoc ih (EditStep.insert [] b y)

theorem script_delete_all (a : List UInt8) : EditScript a.length a [] :=
  editScript_symm (script_insert_all a)

/-- Some edit script has as many operations as the value of the recurrence. -/
theorem lev_script (a b : List UInt8) : EditScript (lev a b) a b := by
  induction a, b using lev.induct with
  | case1 b => rw [lev]; exact script_insert_all b
  | case2 x a => rw [lev]; exact script_delete_all (x :: a)
  | case3 x a y b ih1 ih2 ih3 =>
    rw [lev]
    have h1 : EditScript (lev a (y :: b) + 1) (x :: a) (y :: b) :=
      EditScript.step (EditStep.delete [] a x) ih1
    have h2 : EditScript (lev (x :: a) b + 1) (x :: a) (y :: b) :=
      editScript_snoc ih2 (EditStep.insert [] b y)
    have h3 : EditScript (lev a b + (if x = y then 0 else 1)) (x :: a) (y :: b) := by
      by_cases hxy : x = y
      · subst hxy; simpa using editScript_cons x ih3
      · simp only [hxy, if_false]
        exact editScript_snoc (editScript_cons x ih3) (EditStep.substitute [] b x y hxy)
    rcases min_choice (min (lev a (y :: b) + 1) (lev (x :: a) b + 1))
        (lev a b + (if x = y then 0 else 1)) with h | h
    · rw [h]
      rcases min_choice (lev a (y :: b) + 1) (lev (x :: a) b + 1) with h' | h'
      · rw [h']; exact h1
      · rw [h']; exact h2
    · rw [h]; exact h3

theorem lev_triangle (x y z : List UInt8) : lev x z ≤ lev x y + lev y z :=
  lev_le_of_script (editScript_append (lev_script x y) (lev_script y z))

/-! ## The table of the specification -/

/-- Entry `(i, j)` of the table is the recurrence on the first `i` bytes of
`a` and the first `j` bytes of `b`, read backwards. -/
theorem levTable_eq_lev (a b : List UInt8) (i j : Nat) (hi : i ≤ a.length)
    (hj : j ≤ b.length) :
    levTable a b i j = lev (a.take i).reverse (b.take j).reverse := by
  induction i, j using levTable.induct a b with
  | case1 j => simp [levTable, lev, List.length_take, hj]
  | case2 i => simp [levTable, lev_nil_right, List.length_take]; omega
  | case3 i j ih1 ih2 ih3 =>
    have hi' : i < a.length := hi
    have hj' : j < b.length := hj
    have ha : (a.take (i + 1)).reverse = charAt a i :: (a.take i).reverse := by
      rw [List.take_succ, List.getElem?_eq_getElem hi', charAt, List.getD_eq_getElem _ _ hi']
      simp only [Option.toList, List.reverse_append, List.reverse_cons, List.reverse_nil,
        List.nil_append, List.singleton_append]
    have hb : (b.take (j + 1)).reverse = charAt b j :: (b.take j).reverse := by
      rw [List.take_succ, List.getElem?_eq_getElem hj', charAt, List.getD_eq_getElem _ _ hj']
      simp only [Option.toList, List.reverse_append, List.reverse_cons, List.reverse_nil,
        List.nil_append, List.singleton_append]
    rw [levTable, ih1 (by omega) hj, ih2 hi (by omega), ih3 (by omega) (by omega)]
    rw [ha, hb, lev]

theorem levTable_le_max (a b : List UInt8) (i j : Nat) : levTable a b i j ≤ max i j := by
  induction i, j using levTable.induct a b with
  | case1 j => simp [levTable]
  | case2 i => simp [levTable]
  | case3 i j ih1 ih2 ih3 =>
    rw [levTable]
    have : levTable a b i j + (if charAt a i = charAt b j then 0 else 1)
        ≤ levTable a b i j + 1 := by
      split_ifs <;> omega
    omega

theorem levTable_zero_right (a b : List UInt8) (i : Nat) : levTable a b i 0 = i := by
  cases i <;> simp [levTable]

theorem levTable_symm (a b : List UInt8) (i j : Nat) : levTable a b i j = levTable b a j i := by
  induction i, j using levTable.induct a b with
  | case1 j => rw [levTable, levTable_zero_right]
  | case2 i => rw [levTable, levTable]
  | case3 i j ih1 ih2 ih3 =>
    rw [levTable, levTable, ih1, ih2, ih3, min_comm (levTable b a (j + 1) i + 1)]
    simp only [eq_comm]

theorem levTable_self (a : List UInt8) (i : Nat) : levTable a a i i = 0 := by
  induction i with
  | zero => simp [levTable]
  | succ i ih => rw [levTable]; simp [ih]

theorem levTable_triangle (a b c : List UInt8) (i j k : Nat) (hi : i ≤ a.length)
    (hj : j ≤ b.length) (hk : k ≤ c.length) :
    levTable a c i k ≤ levTable a b i j + levTable b c j k := by
  rw [levTable_eq_lev a c i k hi hk, levTable_eq_lev a b i j hi hj, levTable_eq_lev b c j k hj hk]
  exact lev_triangle _ _ _

/-- The last entry of the table is the Levenshtein distance. -/
theorem levTable_isEditDistance (a b : List UInt8) :
    IsEditDistance a b (levTable a b a.length b.length) := by
  rw [levTable_eq_lev a b _ _ (le_refl _) (le_refl _), List.take_length, List.take_length]
  constructor
  · have := editScript_reverse (lev_script a.reverse b.reverse)
    rwa [List.reverse_reverse, List.reverse_reverse] at this
  · intro n h
    exact lev_le_of_script (editScript_reverse h)

/-! ## The loops of `levenshtein_distance` -/

/-- Invariant rule for a counted loop `for (k = 1; k <= n; k++)` whose body
may fail: the loop runs to completion and establishes the invariant at
`n + 1`. -/
theorem foldlM_range_inv {σ : Type} (f : σ → Nat → Option σ) (P : Nat → σ → Prop) (n : Nat)
    (s : σ) (h0 : P 1 s)
    (hstep : ∀ k s, 1 ≤ k → k ≤ n → P k s → ∃ s', f s k = some s' ∧ P (k + 1) s') :
    ∃ s', (List.range' 1 n).foldlM f s = some s' ∧ P (n + 1) s' := by
  induction n with
  | zero => exact ⟨s, by simp, h0⟩
  | succ n ih =>
    obtain ⟨s1, hs1, hP1⟩ := ih (fun k s hk hkn hP => hstep k s hk (by omega) hP)
    obtain ⟨s2, hs2, hP2⟩ := hstep (n + 1) s1 (by omega) (by omega) hP1
    refine ⟨s2, ?_, hP2⟩
    rw [List.range'_concat, List.foldlM_append, hs1]
    simp [hs2, Nat.add_comm]

theorem foldl_setColumn (k : Nat) (m : Matrix) (i j : Nat) :
    (List.range k).foldl (fun m i => m.set i 0 (i : Int)) m i j
      = if j = 0 ∧ i < k then (i : Int) else m i j := by
  induction k with
  | zero => simp
  | succ n ih =>
    rw [List.range_succ, List.foldl_append]
    simp only [List.foldl_cons, List.foldl_nil, Matrix.set]
    rw [ih]
    by_cases h1 : i = n <;> by_cases h2 : j = 0 <;> simp [h1, h2]
    omega

theorem foldl_setRow (k : Nat) (m : Matrix) (i j : Nat) :
    (List.range k).foldl (fun m j => m.set 0 j (j : Int)) m i j
      = if i = 0 ∧ j < k then (j : Int) else m i j := by
  induction k with
  | zero => simp
  | succ n ih =>
    rw [List.range_succ, List.foldl_append]
    simp only [List.foldl_cons, List.foldl_nil, Matrix.set]
    rw [ih]
    by_cases h1 : j = n <;> by_cases h2 : i = 0 <;> simp [h1, h2]
    omega

theorem initColumn_apply (n : Nat) (m : Matrix) (i j : Nat) :
    initColumn n m i j = if j = 0 ∧ i ≤ n then (i : Int) else m i j := by
  unfold initColumn
  rw [foldl_setColumn]
  simp only [Nat.lt_succ_iff]

theorem initRow_apply (n : Nat) (m : Matrix) (i j : Nat) :
    initRow n m i j = if i = 0 ∧ j ≤ n then (j : Int) else m i j := by
  unfold initRow
  rw [foldl_setRow]
  simp only [Nat.lt_succ_iff]

/-- After the two initialisation loops row 0 and column 0 hold the table. -/
theorem init_filled (garbage : Matrix) (a b : List UInt8) (n1 n2 : Nat) :
    Filled a b n1 n2 1 1 (initRow n2 (initColumn n1 garbage)) := by
  intro i' j' hi' hj' h
  rw [initRow_apply, initColumn_apply]
  by_cases h0 : i' = 0
  · subst h0; simp [hj', levTable]
  · have hj0 : j' = 0 := by omega
    subst hj0
    obtain ⟨k, rfl⟩ : ∃ k, i' = k + 1 := ⟨i' - 1, by omega⟩
    simp [hi', levTable]

/-- A table entry plus a cost of at most one does not overflow while both
lengths are below `INT_MAX`. -/
theorem addInt_levTable (a b : List UInt8) (n1 n2 i j : Nat) (c : Nat) (hc : c ≤ 1)
    (h1 : (n1 : Int) < INT_MAX) (h2 : (n2 : Int) < INT_MAX) (hi : i ≤ n1) (hj : j ≤ n2) :
    addInt (levTable a b i j : Int) (c : Int) = some ((levTable a b i j + c : Nat) : Int) := by
  have := levTable_le_max a b i j
  unfold addInt INT_MAX INT_MIN at *
  rw [if_pos]
  · push_cast; rfl
  · omega

/-- The loop body at `(i, j)` succeeds and extends the written cells. -/
theorem fillCell_filled (a b : List UInt8) (n1 n2 i j : Nat) (m : Matrix)
    (h1 : (n1 : Int) < INT_MAX) (h2 : (n2 : Int) < INT_MAX)
    (hi1 : 1 ≤ i) (hi : i ≤ n1) (hj1 : 1 ≤ j) (hj : j ≤ n2) (hm : Filled a b n1 n2 i j m) :
    ∃ m', fillCell a b i j m = some m' ∧ Filled a b n1 n2 i (j + 1) m' := by
  obtain ⟨i, rfl⟩ : ∃ k, i = k + 1 := ⟨i - 1, by omega⟩
  obtain ⟨j, rfl⟩ : ∃ k, j = k + 1 := ⟨j - 1, by omega⟩
  have e1 : m i (j + 1) = (levTable a b i (j + 1) : Int) := hm _ _ (by omega) hj (by omega)
  have e2 : m (i + 1) j = (levTable a b (i + 1) j : Int) := by
    apply hm _ _ hi (by omega)
    omega
  have e3 : m i j = (levTable a b i j : Int) := hm _ _ (by omega) (by omega) (by omega)
  have a1 := addInt_levTable a b n1 n2 i (j + 1) 1 (by omega) h1 h2 (by omega) hj
  have a2 := addInt_levTable a b n1 n2 (i + 1) j 1 (by omega) h1 h2 hi (by omega)
  have a3 := addInt_levTable a b n1 n2 i j (if charAt a i = charAt b j then 0 else 1)
    (by split_ifs <;> omega) h1 h2 (by omega) (by omega)
  have hcost : (if charAt a i = charAt b j then (0 : Int) else 1)
      = ((if charAt a i = charAt b j then 0 else 1 : Nat) : Int) := by split_ifs <;> rfl
  have hmin : fmin (fmin ((levTable a b i (j + 1) + 1 : Nat) : Int)
        ((levTable a b (i + 1) j + 1 : Nat) : Int))
        ((levTable a b i j + (if charAt a i = charAt b j then 0 else 1) : Nat) : Int)
      = (levTable a b (i + 1) (j + 1) : Int) := by
    rw [levTable]
    simp only [fmin]
    push_cast
    simp only [min_def]
  have hcell : fillCell a b (i + 1) (j + 1) m
      = some (m.set (i + 1) (j + 1) (levTable a b (i + 1) (j + 1) : Int)) := by
    simp only [fillCell, Nat.add_sub_cancel, e1, e2, e3, hcost]
    rw [show ((1 : Int)) = ((1 : Nat) : Int) from rfl, a1, a2, a3]
    simp only [Option.bind_eq_bind, Option.some_bind, Option.pure_def, hmin]
  refine ⟨_, hcell, ?_⟩
  intro i' j' hi' hj' h
  by_cases hc : i' = i + 1 ∧ j' = j + 1
  · obtain ⟨rfl, rfl⟩ := hc
    simp only [Matrix.set, and_self, if_true]
  · simp only [Matrix.set, hc, if_false]
    apply hm _ _ hi' hj'
    omega

theorem fillRow_filled (a b : List UInt8) (n1 n2 i : Nat) (m : Matrix)
    (h1 : (n1 : Int) < INT_MAX) (h2 : (n2 : Int) < INT_MAX)
    (hi1 : 1 ≤ i) (hi : i ≤ n1) (hm : Filled a b n1 n2 i 1 m) :
    ∃ m', fillRow a b n2 i m = some m' ∧ Filled a b n1 n2 (i + 1) 1 m' := by
  obtain ⟨m', hm', hF⟩ := foldlM_range_inv (fun m j => fillCell a b i j m)
    (fun j m => Filled a b n1 n2 i j m) n2 m hm
    (fun k s hk hkn hP => fillCell_filled a b n1 n2 i k s h1 h2 hi1 hi hk hkn hP)
  refine ⟨m', hm', ?_⟩
  intro i' j' hi' hj' h
  apply hF _ _ hi' hj'
  omega

theorem fillMatrix_filled (a b : List UInt8) (n1 n2 : Nat) (m : Matrix)
    (h1 : (n1 : Int) < INT_MAX) (h2 : (n2 : Int) < INT_MAX) (hm : Filled a b n1 n2 1 1 m) :
    ∃ m', fillMatrix a b n1 n2 m = some m' ∧ Filled a b n1 n2 (n1 + 1) 1 m' :=
  foldlM_range_inv (fun m i => fillRow a b n2 i m)
    (fun i m => Filled a b n1 n2 i 1 m) n1 m hm
    (fun k s hk hkn hP => fillRow_filled a b n1 n2 k s h1 h2 hk hkn hP)

/-- The loops run to completion and leave the table entry in
`matrix[len1][len2]`, for every content of the fresh rows. -/
theorem levenshtein_matrix_eq (garbage : Matrix) (a b : List UInt8) (n1 n2 : Nat)
    (h1 : (n1 : Int) < INT_MAX) (h2 : (n2 : Int) < INT_MAX) :
    levenshtein_matrix garbage a b n1 n2 = some (levTable a b n1 n2 : Int) := by
  obtain ⟨m', hm', hF⟩ := fillMatrix_filled a b n1 n2 _ h1 h2 (init_filled garbage a b n1 n2)
  simp only [levenshtein_matrix, hm', Option.bind_eq_bind, Option.some_bind, Option.pure_def]
  rw [hF n1 n2 (le_refl _) (le_refl _) (by omega)]

/-! ## `levenshtein_distance` as a function of the two lengths -/

theorem strlen_le_length (a : List UInt8) : strlen a ≤ a.length := by
  induction a with
  | nil => simp [strlen]
  | cons c cs ih => simp only [strlen, List.length_cons]; split_ifs <;> omega

theorem strlen_of_nulFree (a : List UInt8) (h : NulFree a) : strlen a = a.length := by
  induction a with
  | nil => simp [strlen]
  | cons c cs ih =>
    have hc : c ≠ 0 := fun e => h (e ▸ List.mem_cons_self _ _)
    have hcs : NulFree cs := fun hx => h (List.mem_cons_of_mem _ hx)
    simp [strlen, hc, ih hcs]

theorem strlen_replicate (n : Nat) (c : UInt8) (hc : c ≠ 0) :
    strlen (List.replicate n c) = n := by
  induction n with
  | zero => simp [strlen]
  | succ n ih => simp [List.replicate_succ, strlen, hc, ih]

theorem nulFree_replicate (n : Nat) (c : UInt8) (hc : c ≠ 0) :
    NulFree (List.replicate n c) := by
  intro h
  exact hc (List.eq_of_mem_replicate h).symm

theorem strlen_longString : strlen longString = 2147483647 :=
  strlen_replicate _ _ (by decide)

theorem strlen_hugeString : strlen hugeString = 2147483648 :=
  strlen_replicate _ _ (by decide)

theorem toInt_of_lt (n : Nat) (h : n < 2147483648) : toInt n = (n : Int) := by
  unfold toInt; omega

theorem toInt_zero : toInt 0 = 0 := by decide

theorem toInt_int_max : toInt 2147483647 = 2147483647 := by decide

theorem toInt_wrap : toInt 2147483648 = -2147483648 := by decide

/-- The result of `levenshtein_distance` in terms of the two `int` lengths:
the early returns, the table entry when both lengths are positive and below
`INT_MAX`, and no defined result otherwise. -/
theorem levenshtein_distance_unfold (a b : List UInt8) :
    levenshtein_distance a b =
      if toInt (strlen a) = 0 then some (toInt (strlen b))
      else if toInt (strlen b) = 0 then some (toInt (strlen a))
      else if 0 < toInt (strlen a) ∧ toInt (strlen a) < INT_MAX ∧
          0 < toInt (strlen b) ∧ toInt (strlen b) < INT_MAX then
        some (levTable a b (toInt (strlen a)).toNat (toInt (strlen b)).toNat : Int)
      else none := by
  unfold levenshtein_distance
  generalize toInt (strlen a) = l1
  generalize toInt (strlen b) = l2
  dsimp only
  by_cases h1 : l1 = 0
  · rw [if_pos h1, if_pos h1]
  rw [if_neg h1, if_neg h1]
  by_cases h2 : l2 = 0
  · rw [if_pos h2, if_pos h2]
  rw [if_neg h2, if_neg h2]
  unfold addInt
  by_cases o1 : INT_MIN ≤ l1 + 1 ∧ l1 + 1 ≤ INT_MAX
  · rw [if_pos o1, Option.bind_eq_bind, Option.some_bind]
    by_cases o2 : INT_MIN ≤ l2 + 1 ∧ l2 + 1 ≤ INT_MAX
    · rw [if_pos o2, Option.some_bind]
      by_cases hz : l1 + 1 ≤ 0 ∨ l2 + 1 ≤ 0
      · rw [if_pos hz, if_neg]
        unfold INT_MAX INT_MIN at *
        omega
      · have b1 : ((l1.toNat : Nat) : Int) < INT_MAX := by unfold INT_MAX INT_MIN at *; omega
        have b2 : ((l2.toNat : Nat) : Int) < INT_MAX := by unfold INT_MAX INT_MIN at *; omega
        rw [if_neg hz, levenshtein_matrix_eq _ a b _ _ b1 b2, if_pos]
        unfold INT_MAX INT_MIN at *
        omega
    · rw [if_neg o2, Option.none_bind, if_neg]
      unfold INT_MAX INT_MIN at *
      omega
  · rw [if_neg o1, Option.bind_eq_bind, Option.none_bind, if_neg]
    unfold INT_MAX INT_MIN at *
    omega

/-- Both C-string lengths below `INT_MAX`: the call returns the table entry. -/
theorem levenshtein_distance_eq (a b : List UInt8) (ha : strlen a < 2147483647)
    (hb : strlen b < 2147483647) :
    levenshtein_distance a b = some (levTable a b (strlen a) (strlen b) : Int) := by
  rw [levenshtein_distance_unfold, toInt_of_lt _ (show strlen a < 2147483648 by omega),
    toInt_of_lt _ (show strlen b < 2147483648 by omega)]
  by_cases h1 : (strlen a : Int) = 0
  · have h0 : strlen a = 0 := by omega
    rw [if_pos h1, h0, levTable]
  · by_cases h2 : (strlen b : Int) = 0
    · have h0 : strlen b = 0 := by omega
      rw [if_neg h1, if_pos h2, h0, levTable_zero_right]
    · rw [if_neg h1, if_neg h2, if_pos, Int.toNat_ofNat, Int.toNat_ofNat]
      unfold INT_MAX
      omega

theorem levenshtein_distance_comm (a b : List UInt8) :
    levenshtein_distance a b = levenshtein_distance b a := by
  rw [levenshtein_distance_unfold, levenshtein_distance_unfold]
  generalize toInt (strlen a) = l1
  generalize toInt (strlen b) = l2
  by_cases h1 : l1 = 0 <;> by_cases h2 : l2 = 0
  · rw [if_pos h1, if_pos h2, h1, h2]
  · rw [if_pos h1, if_neg h2, if_pos h1]
  · rw [if_neg h1, if_pos h2, if_pos h2]
  · rw [if_neg h1, if_neg h2, if_neg h2, if_neg h1, levTable_symm a b]
    by_cases hc : 0 < l1 ∧ l1 < INT_MAX ∧ 0 < l2 ∧ l2 < INT_MAX
    · rw [if_pos hc, if_pos ⟨hc.2.2.1, hc.2.2.2, hc.1, hc.2.1⟩]
    · rw [if_neg hc, if_neg (fun h => hc ⟨h.2.2.1, h.2.2.2, h.1, h.2.1⟩)]

theorem levenshtein_distance_nil_left (b : List UInt8) :
    levenshtein_distance [] b = some (toInt (strlen b)) := by
  rw [levenshtein_distance_unfold, strlen, toInt_zero, if_pos rfl]

theorem levenshtein_distance_nil_right (a : List UInt8) :
    levenshtein_distance a [] = some (toInt (strlen a)) := by
  rw [levenshtein_distance_unfold, strlen, toInt_zero]
  by_cases h : toInt (strlen a) = 0
  · rw [if_pos h, h]
  · rw [if_neg h, if_pos rfl]

/-- At `2^31 - 1` bytes against a non-empty string, `len1 + 1` overflows. -/
theorem levenshtein_distance_longString (b : List UInt8) (hb : toInt (strlen b) ≠ 0) :
    levenshtein_distance longString b = none := by
  rw [levenshtein_distance_unfold, strlen_longString, toInt_int_max,
    if_neg (by decide), if_neg hb, if_neg]
  rintro ⟨-, h, -⟩
  exact absurd h (by decide)

/-! ## `haversine_distance` over the reals -/

/-- The rectangular coordinates of every point have magnitude one. -/
theorem magnitude_rect (lat lon : ℝ) : magnitude (rect lat lon) = 1 := by
  unfold magnitude rect
  have h : Real.sin lon * Real.cos lat * (Real.sin lon * Real.cos lat)
      + Real.sin lat * Real.sin lat
      + Real.cos lon * Real.cos lat * (Real.cos lon * Real.cos lat) = 1 := by
    have h1 := Real.sin_sq_add_cos_sq lon
    have h2 := Real.sin_sq_add_cos_sq lat
    nlinarith [h1, h2]
  simp only [h, Real.sqrt_one]

/-- The dot product passed to `acos` is the cosine of the central angle. -/
theorem haversine_dot_eq (lat_a lon_a lat_b lon_b : ℝ) :
    haversine_dot lat_a lon_a lat_b lon_b
      = Real.sin lat_a * Real.sin lat_b
        + Real.cos lat_a * Real.cos lat_b * Real.cos (lon_a - lon_b) := by
  unfold haversine_dot unitVector
  simp only [magnitude_rect, div_one]
  unfold rect
  rw [Real.cos_sub]
  ring

theorem haversine_dot_le_one (lat_a lon_a lat_b lon_b : ℝ) :
    haversine_dot lat_a lon_a lat_b lon_b ≤ 1 := by
  rw [haversine_dot_eq]
  have h1 := Real.cos_le_one (lat_a - lat_b)
  have h2 := Real.neg_one_le_cos (lat_a + lat_b)
  have h3 := Real.cos_le_one (lon_a - lon_b)
  have h4 := Real.neg_one_le_cos (lon_a - lon_b)
  rw [Real.cos_sub] at h1
  rw [Real.cos_add] at h2
  nlinarith [mul_nonneg (sub_nonneg.2 h3) (sub_nonneg.2 h2),
    mul_nonneg (sub_nonneg.2 h4) (sub_nonneg.2 h1)]

theorem neg_one_le_haversine_dot (lat_a lon_a lat_b lon_b : ℝ) :
    -1 ≤ haversine_dot lat_a lon_a lat_b lon_b := by
  rw [haversine_dot_eq]
  have h1 := Real.neg_one_le_cos (lat_a - lat_b)
  have h2 := Real.cos_le_one (lat_a + lat_b)
  have h3 := Real.cos_le_one (lon_a - lon_b)
  have h4 := Real.neg_one_le_cos (lon_a - lon_b)
  rw [Real.cos_sub] at h1
  rw [Real.cos_add] at h2
  nlinarith [mul_nonneg (sub_nonneg.2 h3) (sub_nonneg.2 h2),
    mul_nonneg (sub_nonneg.2 h4) (sub_nonneg.2 h1)]

theorem pi_pos : 0 < pi := by unfold pi; norm_num

/-- The `double` nearest to the decimal literal of the source,
`884279719003555 / 2^48`, is smaller than the literal, which is smaller
than π. -/
theorem pi_double_lt_real_pi : (884279719003555 / 281474976710656 : ℝ) < Real.pi := by
  have h := Real.pi_gt_d20
  have e : (884279719003555 / 281474976710656 : ℝ) < 3.14159265358979323846 := by norm_num
  linarith

/-- The constant of the source is smaller than π. -/
theorem pi_lt_real_pi : pi < Real.pi := by unfold pi; exact pi_double_lt_real_pi

/-- The latitude the code compares with: `pi / 2` is the `double`
`884279719003555 / 2^49`. -/
theorem pi2_eq : pi / 2 = 884279719003555 / 562949953421312 := by unfold pi; norm_num

/-- The latitude `pi / 2` of the source is not the pole: its cosine is not
zero. -/
theorem cos_pi2_pos : 0 < Real.cos (pi / 2) := by
  apply Real.cos_pos_of_mem_Ioo
  constructor
  · have := pi_pos; have := Real.pi_pos; linarith
  · have := pi_lt_real_pi; linarith

/-- The general path: neither early return is taken. -/
theorem haversine_distance_general (lat_a lon_a lat_b lon_b : ℝ)
    (h1 : ¬ (lat_a = lat_b ∧ lon_a = lon_b))
    (h2 : ¬ ((lat_a = pi / 2 ∧ lat_b = pi / 2) ∨ (lat_a = -(pi / 2) ∧ lat_b = -(pi / 2)))) :
    haversine_distance lat_a lon_a lat_b lon_b
      = Real.arccos (haversine_dot lat_a lon_a lat_b lon_b) := by
  unfold haversine_distance
  rw [if_neg h1]
  dsimp only
  rw [if_neg h2]

/-- The first early return. -/
theorem haversine_distance_same (lat lon : ℝ) : haversine_distance lat lon lat lon = 0 := by
  unfold haversine_distance
  rw [if_pos ⟨rfl, rfl⟩]

/-- The second early return. -/
theorem haversine_distance_poles (lat_a lon_a lat_b lon_b : ℝ)
    (h : (lat_a = pi / 2 ∧ lat_b = pi / 2) ∨ (lat_a = -(pi / 2) ∧ lat_b = -(pi / 2))) :
    haversine_distance lat_a lon_a lat_b lon_b = 0 := by
  unfold haversine_distance
  by_cases h1 : lat_a = lat_b ∧ lon_a = lon_b
  · rw [if_pos h1]
  · rw [if_neg h1]
    dsimp only
    rw [if_pos h]

/-- Two antipodal points on the equator are at distance π, the upper end of
the range. -/
theorem haversine_distance_antipodal : haversine_distance 0 0 0 Real.pi = Real.pi := by
  have hp := pi_pos
  have hr := Real.pi_pos
  rw [haversine_distance_general, haversine_dot_eq]
  · simp
  · rintro ⟨-, h⟩; linarith
  · rintro (⟨h, -⟩ | ⟨h, -⟩) <;> linarith

/-- Two points of equal longitude, off the early returns: the result is the
difference of the latitudes. -/
theorem haversine_distance_same_lon (lat_a lat_b lon : ℝ) (h1 : lat_a ≠ lat_b)
    (h2 : ¬ ((lat_a = pi / 2 ∧ lat_b = pi / 2) ∨ (lat_a = -(pi / 2) ∧ lat_b = -(pi / 2))))
    (h : |lat_a - lat_b| ≤ Real.pi) :
    haversine_distance lat_a lon lat_b lon = |lat_a - lat_b| := by
  rw [haversine_distance_general _ _ _ _ (fun e => h1 e.1) h2, haversine_dot_eq, sub_self,
    Real.cos_zero, mul_one, add_comm, ← Real.cos_sub, ← Real.cos_abs]
  exact Real.arccos_cos (abs_nonneg _) h

theorem arccos_formula_same (lat lon : ℝ) :
    Real.arccos (Real.sin lat * Real.sin lat
      + Real.cos lat * Real.cos lat * Real.cos (lon - lon)) = 0 := by
  have h := Real.sin_sq_add_cos_sq lat
  have e : Real.sin lat * Real.sin lat
      + Real.cos lat * Real.cos lat * Real.cos (lon - lon) = 1 := by
    rw [sub_self, Real.cos_zero]; nlinarith [h]
  rw [e, Real.arccos_one]

/-! ## The claims about `levenshtein_distance` -/

/-- C1 (amended): for all NUL-free byte strings `a` and `b` whose lengths are
below `2^31 - 1`, or one of which is empty while the length of the other fits
in a 32-bit `int`, `levenshtein_distance(a, b)` returns the Levenshtein
distance of `a` and `b`: some script of single-byte insertions, deletions and
substitutions of that length transforms `a` into `b`, and none is shorter. -/
theorem levenshtein_distance_is_edit_distance (a b : List UInt8)
    (ha : NulFree a) (hb : NulFree b)
    (hlen : (a.length < 2147483647 ∧ b.length < 2147483647) ∨
      (a = [] ∧ b.length ≤ 2147483647) ∨ (b = [] ∧ a.length ≤ 2147483647)) :
    ∃ d : Nat, levenshtein_distance a b = some (d : Int) ∧ IsEditDistance a b d := by
  refine ⟨levTable a b a.length b.length, ?_, levTable_isEditDistance a b⟩
  have sa := strlen_of_nulFree a ha
  have sb := strlen_of_nulFree b hb
  rcases hlen with ⟨h1, h2⟩ | ⟨rfl, h2⟩ | ⟨rfl, h1⟩
  · rw [levenshtein_distance_eq a b (by omega) (by omega), sa, sb]
  · rw [levenshtein_distance_nil_left, sb, toInt_of_lt _ (by omega), List.length_nil, levTable]
  · rw [levenshtein_distance_nil_right, sa, toInt_of_lt _ (by omega), List.length_nil,
      levTable_zero_right]

/-- C1, witness: the theorem at `"flaw"` and `"lawn"`. -/
theorem levenshtein_distance_is_edit_distance_witness :
    NulFree flaw ∧ NulFree lawn ∧
      ∃ d : Nat, levenshtein_distance flaw lawn = some (d : Int) ∧ IsEditDistance flaw lawn d :=
  ⟨by decide, by decide,
    levenshtein_distance_is_edit_distance flaw lawn (by decide) (by decide)
      (Or.inl ⟨by decide, by decide⟩)⟩

/-- C1, counterexample: `a` is `2^31 - 1` bytes `'a'` and `b` is `"a"`.  Both
are NUL-free and both lengths fit in a 32-bit `int`, but `len1 + 1` overflows
`int` in `new int*[len1 + 1]`: the call has no defined result, so it does
not return the Levenshtein distance. -/
theorem levenshtein_distance_is_edit_distance_counterexample :
    NulFree longString ∧ NulFree [97] ∧ (longString.length : Int) ≤ INT_MAX ∧
      (([97] : List UInt8).length : Int) ≤ INT_MAX ∧
      levenshtein_distance longString [97] = none ∧
      ¬ ∃ d : Nat, levenshtein_distance longString [97] = some (d : Int) ∧
        IsEditDistance longString [97] d := by
  have hnone : levenshtein_distance longString [97] = none :=
    levenshtein_distance_longString [97] (by decide)
  refine ⟨nulFree_replicate _ _ (by decide), by decide, ?_, by decide, hnone, ?_⟩
  · rw [longString, List.length_replicate]; decide
  · rintro ⟨d, hd, -⟩
    rw [hnone] at hd
    exact Option.noConfusion hd

/-- C2 (amended): for every NUL-free byte sequence `a` of at most `2^31 - 1`
bytes, `levenshtein_distance(a, "")` and `levenshtein_distance("", a)` are
the number of bytes of `a`; and `levenshtein_distance("", "") = 0`. -/
theorem levenshtein_distance_empty (a : List UInt8) (ha : NulFree a)
    (hlen : a.length ≤ 2147483647) :
    levenshtein_distance a [] = some (a.length : Int) ∧
      levenshtein_distance [] a = some (a.length : Int) ∧
      levenshtein_distance [] [] = some 0 := by
  have sa := strlen_of_nulFree a ha
  refine ⟨?_, ?_, by decide⟩
  · rw [levenshtein_distance_nil_right, sa, toInt_of_lt _ (by omega)]
  · rw [levenshtein_distance_nil_left, sa, toInt_of_lt _ (by omega)]

/-- C2, witness: the theorem at `"kitten"`. -/
theorem levenshtein_distance_empty_witness :
    NulFree kitten ∧ kitten.length ≤ 2147483647 ∧
      levenshtein_distance kitten [] = some (kitten.length : Int) ∧
      levenshtein_distance [] kitten = some (kitten.length : Int) ∧
      levenshtein_distance [] [] = some 0 :=
  ⟨by decide, by decide, levenshtein_distance_empty kitten (by decide) (by decide)⟩

/-- C2, counterexample: the three bytes `'a'`, NUL, `'b'` give 1, the number
of bytes before the NUL, against the empty string; and the `2^31` bytes
`'a'` give `-2^31`, the length after its conversion to `int`. -/
theorem levenshtein_distance_empty_counterexample :
    (([97, 0, 98] : List UInt8).length = 3 ∧ levenshtein_distance [97, 0, 98] [] = some 1 ∧
        levenshtein_distance [] [97, 0, 98] = some 1) ∧
      (hugeString.length = 2147483648 ∧
        levenshtein_distance hugeString [] = some (-2147483648) ∧
        levenshtein_distance [] hugeString = some (-2147483648)) := by
  refine ⟨⟨by decide, by decide, by decide⟩, ?_, ?_, ?_⟩
  · rw [hugeString, List.length_replicate]
  · rw [levenshtein_distance_nil_right, strlen_hugeString, toInt_wrap]
  · rw [levenshtein_distance_nil_left, strlen_hugeString, toInt_wrap]

/-- C3: symmetry.  For all byte strings `a` and `b` the calls
`levenshtein_distance(a, b)` and `levenshtein_distance(b, a)` have the same
outcome: the same `int`, or no defined result for both. -/
theorem levenshtein_distance_symmetric (a b : List UInt8) :
    levenshtein_distance a b = levenshtein_distance b a :=
  levenshtein_distance_comm a b

/-- C4 (amended): triangle inequality.  For all byte strings `a`, `b` and
`c` whose C-string lengths (the bytes before the first NUL) are below
`2^31 - 1`, the three calls return and `levenshtein_distance(a, c) <=
levenshtein_distance(a, b) + levenshtein_distance(b, c)`. -/
theorem levenshtein_distance_triangle (a b c : List UInt8)
    (ha : strlen a < 2147483647) (hb : strlen b < 2147483647) (hc : strlen c < 2147483647) :
    ∃ x y z : Int, levenshtein_distance a c = some x ∧ levenshtein_distance a b = some y ∧
      levenshtein_distance b c = some z ∧ x ≤ y + z := by
  refine ⟨_, _, _, levenshtein_distance_eq a c ha hc, levenshtein_distance_eq a b ha hb,
    levenshtein_distance_eq b c hb hc, ?_⟩
  exact_mod_cast levTable_triangle a b c _ _ _ (strlen_le_length a) (strlen_le_length b)
    (strlen_le_length c)

/-- C4, witness: the theorem at `"flaw"`, the bytes `'l'`, NUL, `'w'`, and
`"lawn"`. -/
theorem levenshtein_distance_triangle_witness :
    ∃ x y z : Int, levenshtein_distance flaw lawn = some x ∧
      levenshtein_distance flaw [108, 0, 119] = some y ∧
      levenshtein_distance [108, 0, 119] lawn = some z ∧ x ≤ y + z :=
  levenshtein_distance_triangle flaw [108, 0, 119] lawn (by decide) (by decide) (by decide)

/-- C4, counterexample: `a` and `c` empty and `b` the `2^31` bytes `'a'`.
The three calls return 0, `-2^31` and `-2^31`, and 0 is not at most the sum
of the other two. -/
theorem levenshtein_distance_triangle_counterexample :
    levenshtein_distance [] [] = some 0 ∧
      levenshtein_distance [] hugeString = some (-2147483648) ∧
      levenshtein_distance hugeString [] = some (-2147483648) ∧
      ¬ ((0 : Int) ≤ -2147483648 + -2147483648) := by
  refine ⟨by decide, ?_, ?_, by decide⟩
  · rw [levenshtein_distance_nil_left, strlen_hugeString, toInt_wrap]
  · rw [levenshtein_distance_nil_right, strlen_hugeString, toInt_wrap]

/-- C5 (amended): identity.  For every byte string `a` whose C-string length
(the bytes before the first NUL) is below `2^31 - 1`,
`levenshtein_distance(a, a) = 0`. -/
theorem levenshtein_distance_self (a : List UInt8) (ha : strlen a < 2147483647) :
    levenshtein_distance a a = some 0 := by
  rw [levenshtein_distance_eq a a ha ha, levTable_self]
  rfl

/-- C5, witness: the theorem at `"kitten"`. -/
theorem levenshtein_distance_self_witness :
    strlen kitten < 2147483647 ∧ levenshtein_distance kitten kitten = some 0 :=
  ⟨by decide, levenshtein_distance_self kitten (by decide)⟩

/-- C5, counterexample: for the `2^31 - 1` bytes `'a'` the call
`levenshtein_distance(a, a)` has no defined result (`len1 + 1` overflows
`int`), so it is not 0. -/
theorem levenshtein_distance_self_counterexample :
    levenshtein_distance longString longString = none ∧
      levenshtein_distance longString longString ≠ some 0 := by
  have hnone : levenshtein_distance longString longString = none :=
    levenshtein_distance_longString longString (by
      rw [strlen_longString, toInt_int_max]; decide)
  exact ⟨hnone, by rw [hnone]; exact fun h => Option.noConfusion h⟩

/-- C6: the concrete cases of the specification:
`levenshtein_distance("kitten", "sitting") = 3` and
`levenshtein_distance("flaw", "lawn") = 2`. -/
theorem levenshtein_distance_examples :
    levenshtein_distance kitten sitting = some 3 ∧ levenshtein_distance flaw lawn = some 2 :=
  ⟨by decide, by decide⟩

/-! ## The claims about `haversine_distance` -/

/-- C7 (amended): over exact real arithmetic, for all inputs that have equal
coordinates or whose latitudes are not both the `double` `pi / 2` of the
source and not both `-pi / 2`, `haversine_distance` returns
`arccos(sin(lat_a) * sin(lat_b) + cos(lat_a) * cos(lat_b) * cos(lon_a - lon_b))`.
This covers the general path and the early return for equal coordinates; the
early return at the latitudes `pi / 2` and `-pi / 2` is left out. -/
theorem haversine_distance_central_angle (lat_a lon_a lat_b lon_b : ℝ)
    (h : (lat_a = lat_b ∧ lon_a = lon_b) ∨
      ¬ ((lat_a = pi / 2 ∧ lat_b = pi / 2) ∨ (lat_a = -(pi / 2) ∧ lat_b = -(pi / 2)))) :
    haversine_distance lat_a lon_a lat_b lon_b
      = Real.arccos (Real.sin lat_a * Real.sin lat_b
          + Real.cos lat_a * Real.cos lat_b * Real.cos (lon_a - lon_b)) := by
  by_cases h1 : lat_a = lat_b ∧ lon_a = lon_b
  · obtain ⟨rfl, rfl⟩ := h1
    rw [haversine_distance_same]
    exact (arccos_formula_same lat_a lon_a).symm
  · have h2 := h.resolve_left h1
    rw [haversine_distance_general _ _ _ _ h1 h2, haversine_dot_eq]

/-- C7, witness: the theorem at the points `(0, 0)` and `(1, 2)`. -/
theorem haversine_distance_central_angle_witness :
    haversine_distance 0 0 1 2
      = Real.arccos (Real.sin 0 * Real.sin 1 + Real.cos 0 * Real.cos 1 * Real.cos (0 - 2)) :=
  haversine_distance_central_angle 0 0 1 2 (Or.inr (by
    have := pi_pos
    rintro (⟨h, -⟩ | ⟨h, -⟩) <;> linarith))

/-- C7, counterexample: at `lat_a = lat_b = pi / 2`, the `double`
`884279719003555 / 2^49`, with `lon_a = 0` and `lon_b = 1.5`, the code
returns 0 by its second early return, while the formula is not 0 there: the
constant `pi` of the source is a `double` below π, so `cos(pi / 2)` is not
zero. -/
theorem haversine_distance_central_angle_counterexample :
    pi / 2 = 884279719003555 / 562949953421312 ∧
      haversine_distance (pi / 2) 0 (pi / 2) 1.5 = 0 ∧
      Real.arccos (Real.sin (pi / 2) * Real.sin (pi / 2)
          + Real.cos (pi / 2) * Real.cos (pi / 2) * Real.cos (0 - 1.5)) ≠ 0 := by
  refine ⟨pi2_eq, haversine_distance_poles _ _ _ _ (Or.inl ⟨rfl, rfl⟩), ?_⟩
  rw [Ne, Real.arccos_eq_zero, not_le]
  have hc := cos_pi2_pos
  have hs := Real.sin_sq_add_cos_sq (pi / 2)
  have ht : Real.cos (0 - 1.5) < 1 := by
    rw [zero_sub, Real.cos_neg, ← Real.cos_zero]
    apply Real.cos_lt_cos_of_nonneg_of_le_pi (le_refl _)
    · have := Real.pi_gt_three; linarith
    · norm_num
  nlinarith [mul_pos hc hc, mul_pos (mul_pos hc hc) (sub_pos.2 ht)]

/-- C8: over exact real arithmetic, for all real inputs the dot product that
`haversine_distance` passes to `acos` lies in `[-1, 1]`, and the value
`haversine_distance` returns lies in `[0, π]`. -/
theorem haversine_distance_range (lat_a lon_a lat_b lon_b : ℝ) :
    (-1 ≤ haversine_dot lat_a lon_a lat_b lon_b ∧ haversine_dot lat_a lon_a lat_b lon_b ≤ 1) ∧
      (0 ≤ haversine_distance lat_a lon_a lat_b lon_b ∧
        haversine_distance lat_a lon_a lat_b lon_b ≤ Real.pi) := by
  refine ⟨⟨neg_one_le_haversine_dot _ _ _ _, haversine_dot_le_one _ _ _ _⟩, ?_⟩
  unfold haversine_distance
  dsimp only
  split_ifs
  · exact ⟨le_refl _, Real.pi_pos.le⟩
  · exact ⟨le_refl _, Real.pi_pos.le⟩
  · exact ⟨Real.arccos_nonneg _, Real.arccos_le_pi _⟩

/-- C9: for any coordinate pair `(lat, lon)`,
`haversine_distance(lat, lon, lat, lon) = 0`. -/
theorem haversine_distance_same_point (lat lon : ℝ) :
    haversine_distance lat lon lat lon = 0 :=
  haversine_distance_same lat lon

/-- C10: for all longitudes, `haversine_distance(pi/2, lon_a, pi/2, lon_b) = 0`
and `haversine_distance(-pi/2, lon_a, -pi/2, lon_b) = 0`, where `pi/2` is the
constant `pi` of the source divided by 2, the `double`
`884279719003555 / 2^49`; in particular
`haversine_distance(pi/2, 0, pi/2, 1.5) = 0`.
The comparison has no tolerance: a latitude `pi/2 + δ` (or `-pi/2 + δ`) with
`δ ≠ 0`, however small, against `pi/2` (or `-pi/2`) takes the general path,
and at equal longitudes the result is `|δ|` (for `|δ| ≤ π`), which is
not 0. -/
theorem haversine_distance_at_poles (lon_a lon_b : ℝ) :
    pi / 2 = 884279719003555 / 562949953421312 ∧
      haversine_distance (pi / 2) lon_a (pi / 2) lon_b = 0 ∧
      haversine_distance (-(pi / 2)) lon_a (-(pi / 2)) lon_b = 0 ∧
      haversine_distance (pi / 2) 0 (pi / 2) 1.5 = 0 ∧
      ∀ δ : ℝ, δ ≠ 0 → |δ| ≤ Real.pi →
        haversine_distance (pi / 2 + δ) lon_a (pi / 2) lon_b
          = Real.arccos (haversine_dot (pi / 2 + δ) lon_a (pi / 2) lon_b) ∧
        haversine_distance (pi / 2 + δ) lon_a (pi / 2) lon_a = |δ| ∧
        haversine_distance (-(pi / 2) + δ) lon_a (-(pi / 2)) lon_a = |δ| := by
  refine ⟨pi2_eq, haversine_distance_poles _ _ _ _ (Or.inl ⟨rfl, rfl⟩),
    haversine_distance_poles _ _ _ _ (Or.inr ⟨rfl, rfl⟩),
    haversine_distance_poles _ _ _ _ (Or.inl ⟨rfl, rfl⟩), ?_⟩
  intro δ hδ hle
  have hp := pi_pos
  have h1 : ∀ l l' : ℝ, ¬ (pi / 2 + δ = pi / 2 ∧ l = l') := by
    rintro l l' ⟨h, -⟩
    exact hδ (by linarith)
  have h2 : ¬ ((pi / 2 + δ = pi / 2 ∧ pi / 2 = pi / 2) ∨
      (pi / 2 + δ = -(pi / 2) ∧ pi / 2 = -(pi / 2))) := by
    rintro (⟨h, -⟩ | ⟨-, h⟩)
    · exact hδ (by linarith)
    · linarith
  refine ⟨haversine_distance_general _ _ _ _ (h1 _ _) h2, ?_, ?_⟩
  · have e := haversine_distance_same_lon (pi / 2 + δ) (pi / 2) lon_a
      (fun h => hδ (by linarith)) h2 (by rwa [add_sub_cancel_left])
    rwa [add_sub_cancel_left] at e
  · have e := haversine_distance_same_lon (-(pi / 2) + δ) (-(pi / 2)) lon_a
      (fun h => hδ (by linarith))
      (by
        rintro (⟨-, h⟩ | ⟨h, -⟩)
        · linarith
        · exact hδ (by linarith))
      (by rwa [add_sub_cancel_left])
    rwa [add_sub_cancel_left] at e

/-- C10, witness: one millionth of a radian off `pi / 2` is not at the
pole. -/
theorem haversine_distance_at_poles_witness :
    haversine_distance (pi / 2 + 1 / 1000000) 0 (pi / 2) 0 = |(1 / 1000000 : ℝ)| :=
  ((haversine_distance_at_poles 0 0).2.2.2.2 (1 / 1000000) (by norm_num)
    (by rw [abs_of_pos (by norm_num)]; have := Real.pi_gt_three; linarith)).2.1

/-! ## More about `haversine_distance`, and the unit conversions -/

theorem haversine_dot_comm (lat_a lon_a lat_b lon_b : ℝ) :
    haversine_dot lat_a lon_a lat_b lon_b = haversine_dot lat_b lon_b lat_a lon_a := by
  unfold haversine_dot
  ring

theorem pi_ne_zero : pi ≠ 0 := ne_of_gt pi_pos

/-- C11: symmetry under swapping the two points, on the early returns as well
as on the general path: for all `lat_a`, `lon_a`, `lat_b`, `lon_b`,
`haversine_distance(lat_a, lon_a, lat_b, lon_b) =
haversine_distance(lat_b, lon_b, lat_a, lon_a)`. -/
theorem haversine_distance_symmetric (lat_a lon_a lat_b lon_b : ℝ) :
    haversine_distance lat_a lon_a lat_b lon_b = haversine_distance lat_b lon_b lat_a lon_a := by
  by_cases h1 : lat_a = lat_b ∧ lon_a = lon_b
  · obtain ⟨rfl, rfl⟩ := h1
    rfl
  · have h1' : ¬ (lat_b = lat_a ∧ lon_b = lon_a) := fun h => h1 ⟨h.1.symm, h.2.symm⟩
    by_cases h2 : (lat_a = pi / 2 ∧ lat_b = pi / 2) ∨ (lat_a = -(pi / 2) ∧ lat_b = -(pi / 2))
    · have h2' : (lat_b = pi / 2 ∧ lat_a = pi / 2) ∨ (lat_b = -(pi / 2) ∧ lat_a = -(pi / 2)) :=
        h2.imp And.symm And.symm
      rw [haversine_distance_poles _ _ _ _ h2, haversine_distance_poles _ _ _ _ h2']
    · have h2' : ¬ ((lat_b = pi / 2 ∧ lat_a = pi / 2) ∨
          (lat_b = -(pi / 2) ∧ lat_a = -(pi / 2))) :=
        fun h => h2 (h.imp And.symm And.symm)
      rw [haversine_distance_general _ _ _ _ h1 h2, haversine_distance_general _ _ _ _ h1' h2',
        haversine_dot_comm]

/-- C12: `radToDist` and `distToRad` are mutually inverse over exact real
arithmetic: for every `x`, `distToRad(radToDist(x)) = x` and
`radToDist(distToRad(x)) = x`. -/
theorem radToDist_distToRad_inverse (x : ℝ) :
    distToRad (radToDist x) = x ∧ radToDist (distToRad x) = x := by
  have hp := pi_ne_zero
  unfold distToRad radToDist
  constructor <;> field_simp

/-- C13: over exact real arithmetic, for every `rad` and `dist`,
`radToDist(rad) = rad * K` and `distToRad(dist) = dist / K` with the single
constant `K = 10800/pi`, `pi` being the constant of the source; consequently
`radToDist(pi) = 10800`, `radToDist(0) = 0` and `distToRad(0) = 0`. -/
theorem radToDist_distToRad_constant (rad dist : ℝ) :
    K = 10800 / pi ∧ radToDist rad = rad * K ∧ distToRad dist = dist / K ∧
      radToDist pi = 10800 ∧ radToDist 0 = 0 ∧ distToRad 0 = 0 := by
  have hp := pi_ne_zero
  unfold distToRad radToDist K
  refine ⟨rfl, ?_, ?_, ?_, ?_, ?_⟩
  · ring
  · field_simp
  · field_simp
  · simp
  · simp

/-! ## The adapter functions -/

theorem text_args_iff (argv : List sqlite3_value) :
    (argv.length = 2 ∧ sqlite3_value_type (arg argv 0) = Datatype.SQLITE_TEXT ∧
        sqlite3_value_type (arg argv 1) = Datatype.SQLITE_TEXT) ↔
      (argv.length = 2 ∧ ∀ v ∈ argv, sqlite3_value_type v = Datatype.SQLITE_TEXT) := by
  rcases argv with _ | ⟨a, _ | ⟨b, _ | ⟨c, t⟩⟩⟩ <;> simp [arg]

theorem float_args_one_iff (argv : List sqlite3_value) :
    (argv.length = 1 ∧ sqlite3_value_type (arg argv 0) = Datatype.SQLITE_FLOAT) ↔
      (argv.length = 1 ∧ ∀ v ∈ argv, sqlite3_value_type v = Datatype.SQLITE_FLOAT) := by
  rcases argv with _ | ⟨a, _ | ⟨b, t⟩⟩ <;> simp [arg]

theorem float_args_four_iff (argv : List sqlite3_value) :
    (argv.length = 4 ∧ sqlite3_value_type (arg argv 0) = Datatype.SQLITE_FLOAT ∧
        sqlite3_value_type (arg argv 1) = Datatype.SQLITE_FLOAT ∧
        sqlite3_value_type (arg argv 2) = Datatype.SQLITE_FLOAT ∧
        sqlite3_value_type (arg argv 3) = Datatype.SQLITE_FLOAT) ↔
      (argv.length = 4 ∧ ∀ v ∈ argv, sqlite3_value_type v = Datatype.SQLITE_FLOAT) := by
  rcases argv with _ | ⟨a, _ | ⟨b, _ | ⟨c, _ | ⟨d, _ | ⟨e, t⟩⟩⟩⟩⟩ <;> simp [arg]

theorem double_ne_null (context : sqlite3_context) (d : ℝ) :
    context ++ [ResultCall.result_double d] ≠ context ++ [ResultCall.result_null] := by
  intro h
  have := List.append_cancel_left h
  simp at this

theorem int_ne_null (context : sqlite3_context) (i : Int) :
    context ++ [ResultCall.result_int i] ≠ context ++ [ResultCall.result_null] := by
  intro h
  have := List.append_cancel_left h
  simp at this

/-- An adapter that makes one `double` call under a condition and one `null`
call otherwise makes the `double` call exactly under the condition. -/
theorem double_or_null (context : sqlite3_context) (c : Prop) [Decidable c] (d : ℝ) :
    ((∃ r, (if c then context ++ [ResultCall.result_double d]
          else context ++ [ResultCall.result_null]) = context ++ [ResultCall.result_double r])
        ↔ c) ∧
      ((if c then context ++ [ResultCall.result_double d]
          else context ++ [ResultCall.result_null]) = context ++ [ResultCall.result_null]
        ↔ ¬ c) := by
  by_cases hc : c
  · rw [if_pos hc]
    exact ⟨⟨fun _ => hc, fun _ => ⟨d, rfl⟩⟩,
      ⟨fun h => absurd h (double_ne_null context d), fun h => absurd hc h⟩⟩
  · rw [if_neg hc]
    exact ⟨⟨fun ⟨r, h⟩ => absurd h.symm (double_ne_null context r), fun h => absurd h hc⟩,
      ⟨fun _ => hc, fun _ => rfl⟩⟩

/-- C14 (amended): `levenshtein_function` sets a null result if and only if
it is not the case that `argc = 2` and both arguments have the text kind.
When the two texts have a C-string length below `2^31 - 1`, it sets an
integer result, equal to `levenshtein_distance(text(argv[0]), text(argv[1]))`,
if and only if `argc = 2` and both arguments have the text kind.  In both
cases the context receives exactly that one result call. -/
theorem levenshtein_function_result (context : sqlite3_context) (argv : List sqlite3_value) :
    (strlen (sqlite3_value_text (arg argv 0)) < 2147483647 →
      strlen (sqlite3_value_text (arg argv 1)) < 2147483647 →
      ((∃ d, levenshtein_distance (sqlite3_value_text (arg argv 0))
              (sqlite3_value_text (arg argv 1)) = some d ∧
            levenshtein_function context argv = some (context ++ [ResultCall.result_int d])) ↔
          (argv.length = 2 ∧ ∀ v ∈ argv, sqlite3_value_type v = Datatype.SQLITE_TEXT))) ∧
      (levenshtein_function context argv = some (context ++ [ResultCall.result_null]) ↔
        ¬ (argv.length = 2 ∧ ∀ v ∈ argv, sqlite3_value_type v = Datatype.SQLITE_TEXT)) := by
  rw [← text_args_iff]
  by_cases hc : argv.length = 2 ∧ sqlite3_value_type (arg argv 0) = Datatype.SQLITE_TEXT ∧
      sqlite3_value_type (arg argv 1) = Datatype.SQLITE_TEXT
  · have hf : levenshtein_function context argv
        = (levenshtein_distance (sqlite3_value_text (arg argv 0))
            (sqlite3_value_text (arg argv 1))).bind
          (fun d => some (context ++ [ResultCall.result_int d])) := by
      unfold levenshtein_function
      dsimp only
      rw [if_pos hc]
      rfl
    constructor
    · intro h0 h1
      have hd := levenshtein_distance_eq _ _ h0 h1
      refine ⟨fun _ => hc, fun _ => ⟨_, hd, ?_⟩⟩
      rw [hf, hd]
      rfl
    · refine ⟨fun h => ?_, fun h => absurd hc h⟩
      rw [hf] at h
      cases hd : levenshtein_distance (sqlite3_value_text (arg argv 0))
          (sqlite3_value_text (arg argv 1)) with
      | none => rw [hd] at h; exact Option.noConfusion h
      | some d =>
        rw [hd] at h
        exact absurd (Option.some.inj h) (int_ne_null context d)
  · have hf : levenshtein_function context argv = some (context ++ [ResultCall.result_null]) := by
      unfold levenshtein_function
      dsimp only
      rw [if_neg hc]
      rfl
    constructor
    · intro _ _
      refine ⟨fun ⟨d, _, h⟩ => ?_, fun h => absurd h hc⟩
      rw [hf] at h
      exact absurd (Option.some.inj h).symm (int_ne_null context d)
    · exact ⟨fun _ => hc, fun _ => hf⟩

/-- C14, witness: the theorem at the arguments `"kitten"` and `"sitting"`. -/
theorem levenshtein_function_result_witness :
    strlen kitten < 2147483647 ∧ strlen sitting < 2147483647 ∧
      ∃ d, levenshtein_distance kitten sitting = some d ∧
        levenshtein_function [] [sqlite3_value.text kitten, sqlite3_value.text sitting]
          = some [ResultCall.result_int d] :=
  ⟨by decide, by decide,
    ((levenshtein_function_result [] [sqlite3_value.text kitten, sqlite3_value.text sitting]).1
      (by decide) (by decide)).2 ⟨rfl, by simp [sqlite3_value_type]⟩⟩

/-- C14, counterexample: two arguments of text kind, `2^31 - 1` bytes `'a'`
and `"a"`.  The call of `levenshtein_distance` has no defined result, and
`levenshtein_function` makes neither result call. -/
theorem levenshtein_function_result_counterexample :
    ([sqlite3_value.text longString, sqlite3_value.text [97]].length = 2 ∧
        ∀ v ∈ [sqlite3_value.text longString, sqlite3_value.text [97]],
          sqlite3_value_type v = Datatype.SQLITE_TEXT) ∧
      levenshtein_function [] [sqlite3_value.text longString, sqlite3_value.text [97]] = none := by
  refine ⟨⟨rfl, by simp [sqlite3_value_type]⟩, ?_⟩
  unfold levenshtein_function
  dsimp only
  rw [if_pos ⟨rfl, rfl, rfl⟩]
  have h : levenshtein_distance longString [97] = none :=
    levenshtein_distance_longString [97] (by decide)
  simp only [arg, List.getD_cons_zero, List.getD_cons_succ, sqlite3_value_text, h]
  rfl

/-- C15: each floating-point adapter sets a float result if and only if the
argument count equals its arity (`haversine_function` 4, `radToDist_function`
1, `distToRad_function` 1) and every argument has the floating-point kind;
otherwise, also for arguments of integer, text or null kind, it sets a null
result.  For `radToDist_function` and `distToRad_function` the float result
is `radToDist(arg)` and `distToRad(arg)`. -/
theorem float_adapters_result (context : sqlite3_context) (argv : List sqlite3_value) :
    (((∃ r, haversine_function context argv = context ++ [ResultCall.result_double r]) ↔
          (argv.length = 4 ∧ ∀ v ∈ argv, sqlite3_value_type v = Datatype.SQLITE_FLOAT)) ∧
        (haversine_function context argv = context ++ [ResultCall.result_null] ↔
          ¬ (argv.length = 4 ∧ ∀ v ∈ argv, sqlite3_value_type v = Datatype.SQLITE_FLOAT))) ∧
      (((∃ r, radToDist_function context argv = context ++ [ResultCall.result_double r]) ↔
          (argv.length = 1 ∧ ∀ v ∈ argv, sqlite3_value_type v = Datatype.SQLITE_FLOAT)) ∧
        (radToDist_function context argv = context ++ [ResultCall.result_null] ↔
          ¬ (argv.length = 1 ∧ ∀ v ∈ argv, sqlite3_value_type v = Datatype.SQLITE_FLOAT))) ∧
      (((∃ r, distToRad_function context argv = context ++ [ResultCall.result_double r]) ↔
          (argv.length = 1 ∧ ∀ v ∈ argv, sqlite3_value_type v = Datatype.SQLITE_FLOAT)) ∧
        (distToRad_function context argv = context ++ [ResultCall.result_null] ↔
          ¬ (argv.length = 1 ∧ ∀ v ∈ argv, sqlite3_value_type v = Datatype.SQLITE_FLOAT))) ∧
      (∀ x : ℝ, radToDist_function context [sqlite3_value.float x]
          = context ++ [ResultCall.result_double (radToDist x)]) ∧
      (∀ x : ℝ, distToRad_function context [sqlite3_value.float x]
          = context ++ [ResultCall.result_double (distToRad x)]) := by
  refine ⟨?_, ?_, ?_, ?_, ?_⟩
  · rw [← float_args_four_iff]
    exact double_or_null context _ _
  · rw [← float_args_one_iff]
    exact double_or_null context _ _
  · rw [← float_args_one_iff]
    exact double_or_null context _ _
  · intro x
    unfold radToDist_function
    dsimp only
    rw [if_pos ⟨rfl, rfl⟩]
    rfl
  · intro x
    unfold distToRad_function
    dsimp only
    rw [if_pos ⟨rfl, rfl⟩]
    rfl

/-! ## The conversion to `float` in `haversine_function` -/

theorem roundHalfEven_eq (y : ℝ) (n : ℤ) (h1 : (n : ℝ) - 1 / 2 < y) (h2 : y < n + 1 / 2) :
    roundHalfEven y = n := by
  have hr : round y = n := by
    rw [round_eq, Int.floor_eq_iff]
    constructor <;> linarith
  have hf : Int.fract y ≠ 1 / 2 := by
    intro h
    have e := Int.floor_add_fract y
    rw [h] at e
    have l1 : ((n - 1 : ℤ) : ℝ) < (⌊y⌋ : ℝ) := by push_cast; linarith
    have l2 : (⌊y⌋ : ℝ) < (n : ℝ) := by linarith
    have l1' : n - 1 < ⌊y⌋ := by exact_mod_cast l1
    have l2' : ⌊y⌋ < n := by exact_mod_cast l2
    omega
  unfold roundHalfEven
  rw [if_neg hf, hr]

theorem int_log_two_eq (r : ℝ) (e : ℤ) (h1 : (2 : ℝ) ^ e ≤ r) (h2 : r < (2 : ℝ) ^ (e + 1)) :
    Int.log 2 r = e := by
  have hr : 0 < r := lt_of_lt_of_le (by positivity) h1
  have a1 : e ≤ Int.log 2 r :=
    (Int.zpow_le_iff_le_log (by norm_num) hr).1 (by exact_mod_cast h1)
  have a2 : Int.log 2 r < e + 1 :=
    (Int.lt_zpow_iff_log_lt (by norm_num) hr).1 (by exact_mod_cast h2)
  omega

/-- The value of `toFloat` from the binade of the argument and the nearest
significand. -/
theorem toFloat_eq (x : ℝ) (e n : ℤ) (he : -126 ≤ e) (h1 : (2 : ℝ) ^ e ≤ |x|)
    (h2 : |x| < (2 : ℝ) ^ (e + 1)) (h3 : (n : ℝ) - 1 / 2 < x / (2 : ℝ) ^ (e - 23))
    (h4 : x / (2 : ℝ) ^ (e - 23) < n + 1 / 2) :
    toFloat x = n * (2 : ℝ) ^ (e - 23) := by
  unfold toFloat
  dsimp only
  rw [int_log_two_eq |x| e h1 h2, max_eq_left he, roundHalfEven_eq _ n h3 h4]

theorem toFloat_zero : toFloat 0 = 0 := by
  unfold toFloat
  dsimp only
  rw [zero_div, roundHalfEven_eq 0 0 (by norm_num) (by norm_num)]
  simp

theorem toFloat_one : toFloat 1 = 1 := by
  rw [toFloat_eq 1 0 8388608 (by norm_num) (by norm_num) (by norm_num) (by norm_num)
    (by norm_num)]
  norm_num

/-- The `double` `1 + 2^-25` is not a `float`: it converts to `1`. -/
theorem toFloat_one_add : toFloat (1 + 1 / 33554432) = 1 := by
  rw [toFloat_eq (1 + 1 / 33554432) 0 8388608 (by norm_num)
    (by rw [abs_of_pos (by norm_num)]; norm_num)
    (by rw [abs_of_pos (by norm_num)]; norm_num) (by norm_num) (by norm_num)]
  norm_num

/-- The `double` nearest to `0.1` converts to the `float` nearest to `0.1`,
which is a different number. -/
theorem toFloat_tenth :
    toFloat (3602879701896397 / 36028797018963968) = 13421773 / 134217728 := by
  rw [toFloat_eq (3602879701896397 / 36028797018963968) (-4) 13421773 (by norm_num)
    (by rw [abs_of_pos (by norm_num)]; norm_num)
    (by rw [abs_of_pos (by norm_num)]; norm_num) (by norm_num) (by norm_num)]
  norm_num

/-- The distance of the point `(x, 0)` from the point `(0, 0)` is `x`, for
`0 < x ≤ 3`. -/
theorem haversine_distance_from_origin (x : ℝ) (h0 : 0 < x) (h3 : x ≤ 3) :
    haversine_distance x 0 0 0 = x := by
  have hp := pi_pos
  have e := haversine_distance_same_lon x 0 0 (ne_of_gt h0)
    (by
      rintro (⟨-, h⟩ | ⟨-, h⟩) <;> linarith)
    (by
      rw [sub_zero, abs_of_pos h0]
      have := Real.pi_gt_three
      linarith)
  rw [e, sub_zero, abs_of_pos h0]

/-- C16: the code at two failing inputs, all arguments of floating-point
kind.  At `1 + 2^-25`, `0`, `1`, `0` the conversion to `float` makes both
latitudes `1` and `haversine_function` sets the result 0, while
`haversine_distance` on the `double` values themselves is `2^-25`.  At the
`double` nearest to `0.1` and three zeros it sets the `float` nearest to
`0.1`, not the `double`.  In general the core receives `toFloat` of each
argument. -/
theorem haversine_function_narrows :
    (haversine_function [] [sqlite3_value.float (1 + 1 / 33554432), sqlite3_value.float 0,
          sqlite3_value.float 1, sqlite3_value.float 0] = [ResultCall.result_double 0] ∧
        haversine_distance (1 + 1 / 33554432) 0 1 0 = 1 / 33554432) ∧
      (haversine_function [] [sqlite3_value.float (3602879701896397 / 36028797018963968),
          sqlite3_value.float 0, sqlite3_value.float 0, sqlite3_value.float 0]
          = [ResultCall.result_double (13421773 / 134217728)] ∧
        haversine_distance (3602879701896397 / 36028797018963968) 0 0 0
          = 3602879701896397 / 36028797018963968) ∧
      (∀ (context : sqlite3_context) (d0 d1 d2 d3 : ℝ),
        haversine_function context [sqlite3_value.float d0, sqlite3_value.float d1,
            sqlite3_value.float d2, sqlite3_value.float d3]
          = context ++ [ResultCall.result_double
              (haversine_distance (toFloat d0) (toFloat d1) (toFloat d2) (toFloat d3))]) := by
  have hgen : ∀ (context : sqlite3_context) (d0 d1 d2 d3 : ℝ),
      haversine_function context [sqlite3_value.float d0, sqlite3_value.float d1,
          sqlite3_value.float d2, sqlite3_value.float d3]
        = context ++ [ResultCall.result_double
            (haversine_distance (toFloat d0) (toFloat d1) (toFloat d2) (toFloat d3))] := by
    intro context d0 d1 d2 d3
    unfold haversine_function
    dsimp only
    rw [if_pos ⟨rfl, rfl, rfl, rfl, rfl⟩]
    rfl
  refine ⟨⟨?_, ?_⟩, ⟨?_, ?_⟩, hgen⟩
  · rw [hgen, toFloat_one_add, toFloat_zero, toFloat_one, haversine_distance_same]
    rfl
  · have hp := pi_pos
    have e := haversine_distance_same_lon (1 + 1 / 33554432) 1 0 (by norm_num)
      (by
        rintro (⟨-, h⟩ | ⟨-, h⟩)
        · unfold pi at h; norm_num at h
        · linarith)
      (by
        rw [add_sub_cancel_left, abs_of_pos (by norm_num)]
        have := Real.pi_gt_three
        linarith)
    rw [e, add_sub_cancel_left, abs_of_pos (by norm_num)]
  · rw [hgen, toFloat_tenth, toFloat_zero,
      haversine_distance_from_origin _ (by norm_num) (by norm_num)]
    rfl
  · exact haversine_distance_from_origin _ (by norm_num) (by norm_num)

/-! ## The table and the bounds of the matrix -/

theorem levTable_ge_diff (a b : List UInt8) (i j : Nat) :
    i ≤ levTable a b i j + j ∧ j ≤ levTable a b i j + i := by
  induction i, j using levTable.induct a b with
  | case1 j => simp [levTable]
  | case2 i => simp [levTable]
  | case3 i j ih1 ih2 ih3 =>
    rw [levTable]
    omega

theorem levTable_int_bounds (a b : List UInt8) (i j : Nat) :
    |(i : Int) - j| ≤ (levTable a b i j : Int) ∧ (levTable a b i j : Int) ≤ max (i : Int) j := by
  have h1 := levTable_ge_diff a b i j
  have h2 := levTable_le_max a b i j
  refine ⟨abs_le.2 ⟨by omega, by omega⟩, ?_⟩
  exact_mod_cast h2

theorem levenshtein_distance_early (a b : List UInt8)
    (hlen : (strlen a = 0 ∧ strlen b ≤ 2147483647) ∨ (strlen b = 0 ∧ strlen a ≤ 2147483647)) :
    levenshtein_distance a b = some (levTable a b (strlen a) (strlen b) : Int) := by
  rw [levenshtein_distance_unfold]
  rcases hlen with ⟨h0, h⟩ | ⟨h0, h⟩
  · rw [h0, toInt_zero, if_pos rfl, toInt_of_lt _ (by omega), levTable]
  · rw [h0, toInt_zero, toInt_of_lt _ (by omega), levTable_zero_right]
    by_cases hz : (strlen a : Int) = 0
    · rw [if_pos hz, hz]
    · rw [if_neg hz, if_pos rfl]

/-- C17 (amended): for all byte strings `a` and `b` whose C-string lengths
`|a|` and `|b|` (the bytes before the first NUL) are below `2^31 - 1`, or of
which one is 0 and the other at most `2^31 - 1`, `levenshtein_distance(a, b)`
returns `M[|a|][|b|]`, where `M` is the table with `M[i][0] = i`,
`M[0][j] = j` and `M[i][j] = min(M[i-1][j] + 1, M[i][j-1] + 1,
M[i-1][j-1] + cost)`, `cost` being 0 if `a[i-1] = b[j-1]` and 1 otherwise.
The loops compute the same entry also when `a` or `b` is empty, so the early
returns do not change the result. -/
theorem levenshtein_distance_refines_table (garbage : Matrix) (a b : List UInt8)
    (hlen : (strlen a < 2147483647 ∧ strlen b < 2147483647) ∨
      (strlen a = 0 ∧ strlen b ≤ 2147483647) ∨ (strlen b = 0 ∧ strlen a ≤ 2147483647)) :
    levenshtein_distance a b = some (levTable a b (strlen a) (strlen b) : Int) ∧
      (strlen a < 2147483647 → strlen b < 2147483647 →
        levenshtein_matrix garbage a b (strlen a) (strlen b)
          = some (levTable a b (strlen a) (strlen b) : Int)) ∧
      (∀ i, levTable a b i 0 = i) ∧ (∀ j, levTable a b 0 j = j) ∧
      (∀ i j, levTable a b (i + 1) (j + 1)
        = min (min (levTable a b i (j + 1) + 1) (levTable a b (i + 1) j + 1))
            (levTable a b i j + (if a.getD i 0 = b.getD j 0 then 0 else 1))) := by
  refine ⟨?_, ?_, levTable_zero_right a b, ?_, ?_⟩
  · rcases hlen with ⟨h1, h2⟩ | h
    · exact levenshtein_distance_eq a b h1 h2
    · exact levenshtein_distance_early a b h
  · intro h1 h2
    exact levenshtein_matrix_eq garbage a b _ _ (by unfold INT_MAX; omega)
      (by unfold INT_MAX; omega)
  · intro j; rw [levTable]
  · intro i j; rw [levTable]; rfl

/-- C17, witness: the theorem at `"kitten"` and `"sitting"`. -/
theorem levenshtein_distance_refines_table_witness :
    strlen kitten < 2147483647 ∧ strlen sitting < 2147483647 ∧
      levenshtein_distance kitten sitting
        = some (levTable kitten sitting (strlen kitten) (strlen sitting) : Int) :=
  ⟨by decide, by decide,
    (levenshtein_distance_refines_table (fun _ _ => 0) kitten sitting
      (Or.inl ⟨by decide, by decide⟩)).1⟩

/-- C17, counterexample: for `"a"` against the `2^31 - 1` bytes `'a'` the
call has no defined result (`len2 + 1` overflows `int`), so it does not
return the entry of the table; and for the three bytes `'a'`, NUL, `'b'`
against `"a"` it returns 0, while the entry `M[3][1]` of the table of the
three bytes is 2. -/
theorem levenshtein_distance_refines_table_counterexample :
    levenshtein_distance [97] longString = none ∧
      (levenshtein_distance [97, 0, 98] [97] = some 0 ∧
        ([97, 0, 98] : List UInt8).length = 3 ∧ ([97] : List UInt8).length = 1 ∧
        levTable [97, 0, 98] [97] 3 1 = 2) := by
  refine ⟨?_, by decide, rfl, rfl, ?_⟩
  · rw [levenshtein_distance_comm]
    exact levenshtein_distance_longString [97] (by decide)
  · simp [levTable, charAt]

/-- C18 (amended): when the C-string lengths `|a|` and `|b|` are below
`2^31 - 1`, the loops run to completion and every value they leave in the
matrix is bounded by its indices: `|i - j| <= matrix[i][j] <= max(i, j)` for
all `i <= |a|` and `j <= |b|`; no cell and no sum `cell + 1` leaves the range
of a 32-bit `int`; and the result satisfies
`||a| - |b|| <= levenshtein_distance(a, b) <= max(|a|, |b|)`. -/
theorem levenshtein_matrix_bounds (garbage : Matrix) (a b : List UInt8)
    (ha : strlen a < 2147483647) (hb : strlen b < 2147483647) :
    (∃ m, fillMatrix a b (strlen a) (strlen b)
          (initRow (strlen b) (initColumn (strlen a) garbage)) = some m ∧
        ∀ i j, i ≤ strlen a → j ≤ strlen b →
          |(i : Int) - j| ≤ m i j ∧ m i j ≤ max (i : Int) j ∧
            INT_MIN ≤ m i j ∧ m i j + 1 ≤ INT_MAX) ∧
      (∃ d, levenshtein_distance a b = some d ∧
        |(strlen a : Int) - strlen b| ≤ d ∧ d ≤ max (strlen a : Int) (strlen b)) := by
  constructor
  · obtain ⟨m, hm, hF⟩ := fillMatrix_filled a b (strlen a) (strlen b) _
      (by unfold INT_MAX; omega) (by unfold INT_MAX; omega)
      (init_filled garbage a b (strlen a) (strlen b))
    refine ⟨m, hm, ?_⟩
    intro i j hi hj
    rw [hF i j hi hj (by omega)]
    have hb' := levTable_int_bounds a b i j
    have hle := levTable_le_max a b i j
    refine ⟨hb'.1, hb'.2, ?_, ?_⟩
    · unfold INT_MIN; omega
    · unfold INT_MAX; omega
  · exact ⟨_, levenshtein_distance_eq a b ha hb, levTable_int_bounds a b _ _⟩

/-- C18, witness: the theorem at `"kitten"` and `"sitting"`. -/
theorem levenshtein_matrix_bounds_witness :
    strlen kitten < 2147483647 ∧ strlen sitting < 2147483647 ∧
      ∃ d, levenshtein_distance kitten sitting = some d ∧
        |(strlen kitten : Int) - strlen sitting| ≤ d ∧
        d ≤ max (strlen kitten : Int) (strlen sitting) :=
  ⟨by decide, by decide,
    (levenshtein_matrix_bounds (fun _ _ => 0) kitten sitting (by decide) (by decide)).2⟩

/-- C18, counterexample: for the `2^31` bytes `'a'` against the empty string
the result is `-2^31`, below the difference of the lengths whether the
length of the first string is taken as its `2^31` bytes or as the `int` the
code holds. -/
theorem levenshtein_matrix_bounds_counterexample :
    levenshtein_distance hugeString [] = some (-2147483648) ∧
      ¬ (|(hugeString.length : Int) - (([] : List UInt8).length : Int)| ≤ -2147483648) ∧
      ¬ (|toInt (strlen hugeString) - toInt (strlen [])| ≤ -2147483648) := by
  refine ⟨?_, ?_, ?_⟩
  · rw [levenshtein_distance_nil_right, strlen_hugeString, toInt_wrap]
  · intro h
    have := abs_nonneg ((hugeString.length : Int) - (([] : List UInt8).length : Int))
    omega
  · intro h
    have := abs_nonneg (toInt (strlen hugeString) - toInt (strlen []))
    omega

/-! ## The unit vectors of `haversine_distance` -/

/-- C19: over exact real arithmetic, for all real `lat` and `lon` the vector
`(sin(lon) * cos(lat), sin(lat), cos(lon) * cos(lat))` that
`haversine_distance` builds has Euclidean magnitude exactly 1; so the
magnitudes `ma` and `mb` are never zero (none of the six divisions divides by
zero) and the normalisation step leaves both vectors unchanged. -/
theorem rect_unit_vector (lat lon : ℝ) :
    rect lat lon = (Real.sin lon * Real.cos lat, Real.sin lat, Real.cos lon * Real.cos lat) ∧
      magnitude (rect lat lon) = 1 ∧ magnitude (rect lat lon) ≠ 0 ∧
      unitVector (rect lat lon) = rect lat lon := by
  refine ⟨rfl, magnitude_rect lat lon, ?_, ?_⟩
  · rw [magnitude_rect]; exact one_ne_zero
  · unfold unitVector
    rw [magnitude_rect]
    simp

end Extensions
